import Mathlib

/-!
AtomSynth: the node / voice graph engine of `Source/Atoms/Atom.cpp`.

A shallow embedding of `AtomParameters`, `AtomController`, `Atom` and `IOSet`.

Conventions of the embedding.

* C++ `int` values (indices, ids, coordinates, counters, the output count) are `Int`.
  `m_numPrimaryInputs` alone is `Nat`: `AtomController`'s constructor hands it to
  `std::vector::resize`, which throws for a negative count, so every controller that exists
  has a non-negative one.  `m_numOutputs` is read only by `Atom`'s constructor, so a
  controller with a negative output count exists; constructing a voice for it throws.
* A call that can throw a C++ exception returns an `Outcome` (the state it leaves behind,
  tagged `returned` or `threw`), or `none` when it is a constructor and leaves no object.
* `std::vector` is `List`; `v[i]` with an `int` index is `vecGet` / `vecModify`,
  which answer `none` for an index outside `0 .. size-1` (undefined behaviour in C++).
  Every operation that indexes a vector therefore returns an `Option`.
* `AtomController *` is `Option Nat` (an address, `none` is `nullptr`); the objects
  other pointers refer to are looked up in a `Heap`.
* `AudioBuffer *` is `Option BufferAddr`; a buffer address names the controller, the
  voice and the output slot whose buffer it is.
* Debug logging (`LogManager`) only writes to the log sink and is left out.
* What `Atom.h`, `SaveState.h` and `Synth.h` declare is not part of the translated
  file; those pieces are marked `Modelled from the spec`.
-/

namespace AtomSynth

/-! ## Vectors and loops -/

/-- Element `v[i]` of a vector for a C++ `int` index; `none` when out of range. -/
def vecGet {α : Type} (v : List α) (i : Int) : Option α :=
  if 0 ≤ i then v[i.toNat]? else none

/-- In-place update `v[i] = f (v[i])` for a C++ `int` index; `none` when out of range. -/
def vecModify {α : Type} (v : List α) (i : Int) (f : α → α) : Option (List α) :=
  match vecGet v i with
  | some x => some (v.set i.toNat (f x))
  | none => none

/-- Loop `for (int i = 0; i < n; i++) body(i)` over a state, stopping at the first
failing iteration. -/
def forLoop {σ : Type} (body : Nat → σ → Option σ) : Nat → σ → Option σ
  | 0, s => some s
  | k + 1, s => (forLoop body k s).bind (body k)

/-- Outcome of a call that may throw a C++ exception: the state the call leaves behind, and
whether it returned normally or threw. -/
inductive Outcome (σ : Type) where
  | returned (state : σ)
  | threw (state : σ)
deriving DecidableEq, Repr

/-- The state a call leaves behind, whether it returned or threw. -/
def Outcome.state {σ : Type} : Outcome σ → σ
  | Outcome.returned s => s
  | Outcome.threw s => s

/-- Loop `for (int i = 0; i < n; i++) body(i)` whose body may throw (`none`) before it has
changed the state; the exception leaves the loop at once. -/
def forLoopCatch {σ : Type} (body : Nat → σ → Option σ) : Nat → σ → Outcome σ
  | 0, s => Outcome.returned s
  | k + 1, s =>
    match forLoopCatch body k s with
    | Outcome.threw t => Outcome.threw t
    | Outcome.returned t =>
      match body k t with
      | none => Outcome.threw t
      | some u => Outcome.returned u

/-- Range-based loop `for (x : v) f(x)` where `f` may fail; elements are visited in order. -/
def forEach {α : Type} (f : α → Option α) : List α → Option (List α)
  | [] => some []
  | x :: rest =>
    match f x with
    | none => none
    | some y =>
      match forEach f rest with
      | none => none
      | some ys => some (y :: ys)

/-! ## Data model -/

/-- Pointer to an `AtomController`: an address, or `none` for `nullptr`. -/
abbrev ControllerPtr := Option Nat

/-- Address of the output buffer `m_outputs[output]` of voice `atom` of the controller
living at address `controller`. -/
structure BufferAddr where
  controller : Nat
  atom : Nat
  output : Nat
deriving DecidableEq, Repr

/-- Pointer to an `AudioBuffer`: `none` is `nullptr`. -/
abbrev BufferPtr := Option BufferAddr

/-- One link record `std::pair<AtomController *, int>`. -/
abbrev Link := ControllerPtr × Int

/-- Modelled from the spec: `AudioBuffer` (declared outside this file) is a block of samples
flagged constant or varying.  Sample values are never inspected here. -/
structure AudioBuffer where
  m_constant : Bool
  m_data : List Int
deriving DecidableEq, Repr

/-- Record `AtomParameters`. -/
structure AtomParameters where
  m_numPrimaryInputs : Nat
  m_numOutputs : Int
  m_id : Int
  m_automationEnabled : Bool
deriving DecidableEq, Repr

/-- Constructor `AtomParameters::AtomParameters(id, numPrimaryInputs, automationEnabled, numOutputs)`. -/
def AtomParameters.new (id : Int) (numPrimaryInputs : Nat) (automationEnabled : Bool)
    (numOutputs : Int) : AtomParameters :=
  { m_numPrimaryInputs := numPrimaryInputs
    m_numOutputs := numOutputs
    m_id := id
    m_automationEnabled := automationEnabled }

/-- Method `AtomParameters::withId`. -/
def AtomParameters.withId (p : AtomParameters) (newId : Int) : AtomParameters :=
  { p with m_id := newId }

/-- One voice (`Atom`).  The back-reference `m_p` to the owning controller is not a field:
operations that reach the parent take it as an argument. -/
structure Atom where
  m_updateTimer : Int
  m_parameters : AtomParameters
  m_sampleRate : Int
  m_sampleRate_f : Int
  m_shouldUpdateParent : Bool
  m_primaryInputs : List BufferPtr
  m_automationInputs : List BufferPtr
  m_outputs : List AudioBuffer
deriving DecidableEq, Repr

/-- Modelled from the spec: the `AutomationEngine` owned by a controller is external; the
only thing recorded of it is how many times it was told to stop its animation. -/
structure AutomationEngine where
  stopCalls : Nat
deriving DecidableEq, Repr

/-- Modelled from the spec: `stopAutomationAnimation()` of the external engine, recorded as
one more stop request. -/
def AutomationEngine.stopAutomationAnimation (e : AutomationEngine) : AutomationEngine :=
  { e with stopCalls := e.stopCalls + 1 }

/-- One graph node (`AtomController`); `m_gui` is left out. -/
structure AtomController where
  m_primaryInputs : List Link
  m_automationInputs : List Link
  m_atoms : List Atom
  m_parameters : AtomParameters
  m_x : Int
  m_y : Int
  m_stopped : Bool
  m_shouldBeDeleted : Bool
  m_automation : AutomationEngine
deriving DecidableEq, Repr

/-- The controllers other pointers refer to, by address. -/
abbrev Heap := Nat → Option AtomController

/-- Modelled from the spec: the host context `Synth::getInstance()`: polyphony, sample rate
and the note manager's per-voice activity state. -/
structure Synth where
  m_polyphony : Int
  m_sampleRate : Int
  isActive : Int → Bool
  isStopped : Int → Bool

/-! ## Voices -/

/-- Constructor `Atom::Atom(parent, index)`.  `AUTOMATION_INPUTS` and the default-constructed
`AudioBuffer()` come from headers and are parameters.  `m_outputs.resize(m_numOutputs, ...)`
turns a negative count into a size beyond `max_size()` and throws `std::length_error`, so no
voice is constructed: `none`. -/
def Atom.new (AUTOMATION_INPUTS : Nat) (defaultBuffer : AudioBuffer) (parent : AtomController)
    (index : Int) : Option Atom :=
  if 0 ≤ (parent.m_parameters.withId index).m_numOutputs then
    some
      { m_updateTimer := 0
        m_parameters := parent.m_parameters.withId index
        m_sampleRate := 0
        m_sampleRate_f := 0
        m_shouldUpdateParent := false
        m_primaryInputs := List.replicate (parent.m_parameters.withId index).m_numPrimaryInputs none
        m_automationInputs := List.replicate AUTOMATION_INPUTS none
        m_outputs := List.replicate (parent.m_parameters.withId index).m_numOutputs.toNat
          defaultBuffer }
  else none

/-- The voice `Atom::Atom(parent, index)` leaves when it completes, named for use in
statements. -/
def Atom.built (AUTOMATION_INPUTS : Nat) (defaultBuffer : AudioBuffer) (parent : AtomController)
    (index : Int) : Atom :=
  { m_updateTimer := 0
    m_parameters := parent.m_parameters.withId index
    m_sampleRate := 0
    m_sampleRate_f := 0
    m_shouldUpdateParent := false
    m_primaryInputs := List.replicate parent.m_parameters.m_numPrimaryInputs none
    m_automationInputs := List.replicate AUTOMATION_INPUTS none
    m_outputs := List.replicate parent.m_parameters.m_numOutputs.toNat defaultBuffer }

/-- Modelled from the spec: `Atom::getIndex()` (declared in `Atom.h`), the voice index, which
is the id of the voice's own parameter copy. -/
def Atom.getIndex (a : Atom) : Int :=
  a.m_parameters.m_id

/-- Modelled from the spec: `Atom::getOutput(index)` (declared in `Atom.h`), the address of
output buffer `index` of this voice; `self` is the voice's own place (controller address and
voice position). -/
def Atom.getOutput (a : Atom) (selfController selfIndex : Nat) (index : Int) : Option BufferAddr :=
  match vecGet a.m_outputs index with
  | some _ => some { controller := selfController, atom := selfIndex, output := index.toNat }
  | none => none

/-- Modelled from the spec: `Atom::linkPrimaryInput(index, buffer)` (declared in `Atom.h`)
stores the reference into primary input slot `index`. -/
def Atom.linkPrimaryInput (a : Atom) (index : Int) (buffer : BufferPtr) : Option Atom :=
  match vecModify a.m_primaryInputs index (fun _ => buffer) with
  | some t => some { a with m_primaryInputs := t }
  | none => none

/-- Modelled from the spec: `Atom::linkAutomationInput(index, buffer)` (declared in `Atom.h`)
stores the reference into automation input slot `index`. -/
def Atom.linkAutomationInput (a : Atom) (index : Int) (buffer : BufferPtr) : Option Atom :=
  match vecModify a.m_automationInputs index (fun _ => buffer) with
  | some t => some { a with m_automationInputs := t }
  | none => none

/-- Modelled from the spec: `Atom::unlinkPrimaryInput(index)` (declared in `Atom.h`) empties
primary input slot `index`. -/
def Atom.unlinkPrimaryInput (a : Atom) (index : Int) : Option Atom :=
  a.linkPrimaryInput index none

/-- Modelled from the spec: `Atom::unlinkAutomationInput(index)` (declared in `Atom.h`)
empties automation input slot `index`. -/
def Atom.unlinkAutomationInput (a : Atom) (index : Int) : Option Atom :=
  a.linkAutomationInput index none

/-- Method `Atom::linkInput(index, buffer)`. -/
def Atom.linkInput (a : Atom) (index : Int) (buffer : BufferPtr) : Option Atom :=
  if index < (a.m_parameters.m_numPrimaryInputs : Int) then
    a.linkPrimaryInput index buffer
  else
    a.linkAutomationInput (index - (a.m_parameters.m_numPrimaryInputs : Int)) buffer

/-- Method `Atom::unlinkInput(index)`. -/
def Atom.unlinkInput (a : Atom) (index : Int) : Option Atom :=
  if index < (a.m_parameters.m_numPrimaryInputs : Int) then
    a.unlinkPrimaryInput index
  else
    a.unlinkAutomationInput (index - (a.m_parameters.m_numPrimaryInputs : Int))

/-- Method `Atom::execute()`: the base compute hook does nothing. -/
def Atom.execute (a : Atom) : Atom :=
  a

/-- Method `Atom::executeWrapper()`.  `calculateAutomation` is the external engine's
per-voice computation, given by its effect on the voice. -/
def Atom.executeWrapper (synth : Synth) (calculateAutomation : Atom → Atom) (a : Atom) : Atom :=
  let a1 := { a with m_sampleRate := synth.m_sampleRate }
  let a2 := { a1 with m_sampleRate_f := a1.m_sampleRate }
  let a3 :=
    if a2.m_parameters.m_id = 0 then
      if a2.m_updateTimer = 0 then
        { a2 with m_updateTimer := 5, m_shouldUpdateParent := true }
      else
        { a2 with m_updateTimer := a2.m_updateTimer - 1, m_shouldUpdateParent := false }
    else a2
  let a4 := if a3.m_parameters.m_automationEnabled then calculateAutomation a3 else a3
  a4.execute

/-! ## Controllers -/

/-- Constructor `AtomController::AtomController(parameters)`; `AUTOMATION_INPUTS` comes from a
header and is a parameter. -/
def AtomController.new (AUTOMATION_INPUTS : Nat) (parameters : AtomParameters) : AtomController :=
  { m_primaryInputs := List.replicate parameters.m_numPrimaryInputs (none, 0)
    m_automationInputs := List.replicate AUTOMATION_INPUTS (none, 0)
    m_atoms := []
    m_parameters := parameters
    m_x := 0
    m_y := 0
    m_stopped := false
    m_shouldBeDeleted := false
    m_automation := { stopCalls := 0 } }

/-- Method `AtomController::createAtom(index)`: `new Atom(*this, index)`, `none` when the
constructor throws. -/
def AtomController.createAtom (AUTOMATION_INPUTS : Nat) (defaultBuffer : AudioBuffer)
    (c : AtomController) (index : Int) : Option Atom :=
  Atom.new AUTOMATION_INPUTS defaultBuffer c index

/-- Method `AtomController::init()`.  When `createAtom(i)` throws, nothing is pushed and the
exception leaves `init()` with the voices created so far. -/
def AtomController.init (AUTOMATION_INPUTS : Nat) (defaultBuffer : AudioBuffer) (synth : Synth)
    (c : AtomController) : Outcome AtomController :=
  forLoopCatch
    (fun i c =>
      match c.createAtom AUTOMATION_INPUTS defaultBuffer i with
      | none => none
      | some atom => some { c with m_atoms := c.m_atoms ++ [atom] })
    synth.m_polyphony.toNat c

/-- Method `AtomController::getAtom(index)`. -/
def AtomController.getAtom (c : AtomController) (index : Int) : Option Atom :=
  vecGet c.m_atoms index

/-- The buffer `controller->getAtom(atomIndex)->getOutput(outputIndex)`, looked up through
the heap; `none` for a null or dangling pointer or an index out of range. -/
def sourceOutput (heap : Heap) (controller : ControllerPtr) (atomIndex outputIndex : Int) :
    Option BufferAddr :=
  match controller with
  | none => none
  | some addr =>
    match heap addr with
    | none => none
    | some source =>
      match source.getAtom atomIndex with
      | none => none
      | some atom => atom.getOutput addr atomIndex.toNat outputIndex

/-- The voice loop shared by `linkPrimaryInput` and `linkAutomationInput`:
`for (Atom * atom : m_atoms) { link(atom, source buffer of voice atomIndex); atomIndex++; }`. -/
def linkAtoms (link : Atom → BufferPtr → Option Atom) (heap : Heap) (controller : ControllerPtr)
    (outputIndex : Int) : List Atom → Int → Option (List Atom)
  | [], _ => some []
  | atom :: rest, atomIndex =>
    match sourceOutput heap controller atomIndex outputIndex with
    | none => none
    | some buffer =>
      match link atom (some buffer) with
      | none => none
      | some atom1 =>
        match linkAtoms link heap controller outputIndex rest (atomIndex + 1) with
        | none => none
        | some rest1 => some (atom1 :: rest1)

/-- Method `AtomController::linkPrimaryInput(index, controller, outputIndex)`. -/
def AtomController.linkPrimaryInput (heap : Heap) (c : AtomController) (index : Int)
    (controller : ControllerPtr) (outputIndex : Int) : Option AtomController :=
  match vecModify c.m_primaryInputs index (fun r => (controller, r.2)) with
  | none => none
  | some t1 =>
    match vecModify t1 index (fun r => (r.1, outputIndex)) with
    | none => none
    | some t2 =>
      match linkAtoms (fun a b => a.linkPrimaryInput index b) heap controller outputIndex
          c.m_atoms 0 with
      | none => none
      | some atoms => some { c with m_primaryInputs := t2, m_atoms := atoms }

/-- Method `AtomController::linkAutomationInput(index, controller, outputIndex)`. -/
def AtomController.linkAutomationInput (heap : Heap) (c : AtomController) (index : Int)
    (controller : ControllerPtr) (outputIndex : Int) : Option AtomController :=
  match vecModify c.m_automationInputs index (fun r => (controller, r.2)) with
  | none => none
  | some t1 =>
    match vecModify t1 index (fun r => (r.1, outputIndex)) with
    | none => none
    | some t2 =>
      match linkAtoms (fun a b => a.linkAutomationInput index b) heap controller outputIndex
          c.m_atoms 0 with
      | none => none
      | some atoms => some { c with m_automationInputs := t2, m_atoms := atoms }

/-- Method `AtomController::linkInput(index, controller, outputIndex)`. -/
def AtomController.linkInput (heap : Heap) (c : AtomController) (index : Int)
    (controller : ControllerPtr) (outputIndex : Int) : Option AtomController :=
  if index < (c.m_parameters.m_numPrimaryInputs : Int) then
    c.linkPrimaryInput heap index controller outputIndex
  else
    c.linkAutomationInput heap (index - (c.m_parameters.m_numPrimaryInputs : Int)) controller
      outputIndex

/-- Method `AtomController::unlinkPrimaryInput(index)`. -/
def AtomController.unlinkPrimaryInput (c : AtomController) (index : Int) : Option AtomController :=
  match vecModify c.m_primaryInputs index (fun r => (none, r.2)) with
  | none => none
  | some t =>
    match forEach (fun a => a.unlinkPrimaryInput index) c.m_atoms with
    | none => none
    | some atoms => some { c with m_primaryInputs := t, m_atoms := atoms }

/-- Method `AtomController::unlinkAutomationInput(index)`. -/
def AtomController.unlinkAutomationInput (c : AtomController) (index : Int) :
    Option AtomController :=
  match vecModify c.m_automationInputs index (fun r => (none, r.2)) with
  | none => none
  | some t =>
    match forEach (fun a => a.unlinkAutomationInput index) c.m_atoms with
    | none => none
    | some atoms => some { c with m_automationInputs := t, m_atoms := atoms }

/-- Method `AtomController::unlinkInput(index)`. -/
def AtomController.unlinkInput (c : AtomController) (index : Int) : Option AtomController :=
  if index < (c.m_parameters.m_numPrimaryInputs : Int) then
    c.unlinkPrimaryInput index
  else
    c.unlinkAutomationInput (index - (c.m_parameters.m_numPrimaryInputs : Int))

/-- Modelled from the spec: `AtomController::getPrimaryInput(index)` (declared in `Atom.h`)
reads primary link record `index`. -/
def AtomController.getPrimaryInput (c : AtomController) (index : Int) : Option Link :=
  vecGet c.m_primaryInputs index

/-- Modelled from the spec: `AtomController::getAutomationInput(index)` (declared in `Atom.h`)
reads automation link record `index`. -/
def AtomController.getAutomationInput (c : AtomController) (index : Int) : Option Link :=
  vecGet c.m_automationInputs index

/-- Method `AtomController::getInput(index)`. -/
def AtomController.getInput (c : AtomController) (index : Int) : Option Link :=
  if index < (c.m_parameters.m_numPrimaryInputs : Int) then
    c.getPrimaryInput index
  else
    c.getAutomationInput (index - (c.m_parameters.m_numPrimaryInputs : Int))

/-- Method `AtomController::stopControlAnimation()`. -/
def AtomController.stopControlAnimation (c : AtomController) : AtomController :=
  { c with m_automation := c.m_automation.stopAutomationAnimation }

/-- The body both loops of `cleanupInputsFromAtom` run on a record. -/
def cleanupRecord (source : ControllerPtr) (input : Link) : Link :=
  if input.1 = source then (none, -1) else input

/-- Method `AtomController::cleanupInputsFromAtom(source)`. -/
def AtomController.cleanupInputsFromAtom (c : AtomController) (source : ControllerPtr) :
    AtomController :=
  let c1 := { c with m_primaryInputs := c.m_primaryInputs.map (cleanupRecord source) }
  { c1 with m_automationInputs := c1.m_automationInputs.map (cleanupRecord source) }

/-- Method `Atom::reset()`; `m_p` is the owning controller, which the call may touch. -/
def Atom.reset (a : Atom) (m_p : AtomController) : Atom × AtomController :=
  let a1 := { a with m_shouldUpdateParent := decide (a.getIndex = 0) }
  if a1.m_shouldUpdateParent then (a1, m_p.stopControlAnimation) else (a1, m_p)

/-- Method `AtomController::execute()`. -/
def AtomController.execute (synth : Synth) (calculateAutomation : Atom → Atom)
    (c : AtomController) : Option AtomController :=
  forLoop (fun i c =>
    if synth.isActive i then
      match vecModify c.m_atoms i (Atom.executeWrapper synth calculateAutomation) with
      | none => none
      | some atoms => some { c with m_atoms := atoms }
    else if synth.isStopped i then
      match c.getAtom i with
      | none => none
      | some atom =>
        let r := atom.reset c
        match vecModify r.2.m_atoms i (fun _ => r.1) with
        | none => none
        | some atoms => some { r.2 with m_atoms := atoms }
    else some c) synth.m_polyphony.toNat c

/-! ## Saved position -/

/-- Modelled from the spec: `SaveState` (declared in `Technical/SaveState.h`) holds an ordered
sequence of numeric values; a fresh one is empty. -/
structure SaveState where
  m_values : List Rat

/-- Modelled from the spec: `SaveState::SaveState()`. -/
def SaveState.new : SaveState :=
  { m_values := [] }

/-- Modelled from the spec: `SaveState::addValue` appends one numeric value. -/
def SaveState.addValue (s : SaveState) (v : Rat) : SaveState :=
  { s with m_values := s.m_values ++ [v] }

/-- Modelled from the spec: `SaveState::getValue(index)` reads the value at `index`. -/
def SaveState.getValue (s : SaveState) (index : Int) : Option Rat :=
  vecGet s.m_values index

/-- The C++ conversion `int(v)` of a numeric value: truncation toward zero.  Values beyond
the range of `int`, where the conversion is undefined, are not told apart; a value saved from
an `int` coordinate never is one. -/
def toInt (v : Rat) : Int :=
  v.num.tdiv (v.den : Int)

/-- Method `AtomController::loadSaveState(state)`. -/
def AtomController.loadSaveState (c : AtomController) (state : SaveState) : Option AtomController :=
  match state.getValue 0 with
  | none => none
  | some v0 =>
    match state.getValue 1 with
    | none => none
    | some v1 => some { c with m_x := toInt v0, m_y := toInt v1 }

/-- Method `AtomController::saveSaveState()`. -/
def AtomController.saveSaveState (c : AtomController) : SaveState :=
  let state := SaveState.new
  let state := state.addValue (c.m_x : Rat)
  let state := state.addValue (c.m_y : Rat)
  state

/-! ## Well-formedness and concrete objects -/

/-- The size invariant the constructors establish: both link tables and every voice's input
slots have the declared lengths. -/
def AtomController.WF (AUTOMATION_INPUTS : Nat) (c : AtomController) : Prop :=
  c.m_primaryInputs.length = c.m_parameters.m_numPrimaryInputs ∧
  c.m_automationInputs.length = AUTOMATION_INPUTS ∧
  ∀ a ∈ c.m_atoms,
    a.m_primaryInputs.length = c.m_parameters.m_numPrimaryInputs ∧
    a.m_automationInputs.length = AUTOMATION_INPUTS

/-- The source controller `controller` offers output `outputIndex` on every voice position
that controller `c` has. -/
def SourceReady (heap : Heap) (c : AtomController) (controller : ControllerPtr)
    (outputIndex : Int) : Prop :=
  ∀ k : Nat, k < c.m_atoms.length → (sourceOutput heap controller k outputIndex).isSome = true

/-- A silent varying buffer used as the default-constructed `AudioBuffer()` in examples. -/
def exBuffer : AudioBuffer :=
  { m_constant := false, m_data := [] }

/-- Example node type: one primary input, two outputs, no automation. -/
def exParams : AtomParameters :=
  AtomParameters.new 0 1 false 2

/-- Example host: two voices, both sounding. -/
def exSynth : Synth :=
  { m_polyphony := 2, m_sampleRate := 44100, isActive := fun _ => true, isStopped := fun _ => false }

/-- Example source controller, initialised; it lives at address 1. -/
def exSource : AtomController :=
  ((AtomController.new 2 exParams).init 2 exBuffer exSynth).state

/-- Example heap: only address 1 is occupied, by `exSource`. -/
def exHeap : Heap :=
  fun addr => if addr = 1 then some exSource else none

/-- Example downstream controller, initialised and not yet linked. -/
def exNode : AtomController :=
  ((AtomController.new 2 exParams).init 2 exBuffer exSynth).state

/-- The voice `Atom::Atom(exNode, 0)` constructs. -/
def exVoice : Atom :=
  { m_updateTimer := 0
    m_parameters := exParams.withId 0
    m_sampleRate := 0
    m_sampleRate_f := 0
    m_shouldUpdateParent := false
    m_primaryInputs := [none]
    m_automationInputs := [none, none]
    m_outputs := [exBuffer, exBuffer] }

/-- Example node type with a negative output count. -/
def exBadParams : AtomParameters :=
  AtomParameters.new 0 1 false (-1)

/-- Controller `exNode` after `linkInput(0, exSource, 1)`. -/
def exLinked : Option AtomController :=
  exNode.linkInput exHeap 0 (some 1) 1

/-- Controller `exNode` after `linkInput(0, exSource, 1)` (primary slot 0) and
`linkInput(1, exSource, 0)` (automation slot 0), as the calls return it. -/
def exLinkedBoth : Option AtomController :=
  (exNode.linkInput exHeap 0 (some 1) 1).bind fun c => c.linkInput exHeap 1 (some 1) 0

/-- The controller `exLinkedBoth` holds: primary record 0 is `(exSource, 1)`, automation
record 0 is `(exSource, 0)`, and both voices reference the matching voice of `exSource`. -/
def exLinkedNode : AtomController :=
  match exLinkedBoth with
  | some c => c
  | none => exNode

/-! ## Buffer iteration set -/

/-- Cursor `DVecIter` into the sample data of a buffer: the buffer it walks and how many
positions it is past the start of that buffer's data. -/
structure DVecIter where
  buffer : BufferAddr
  offset : Int
deriving DecidableEq, Repr

/-- Modelled from the spec: `getData().begin()` of the buffer at address `b`, the cursor at the
start of its data. -/
def dataBegin (b : BufferAddr) : DVecIter :=
  { buffer := b, offset := 0 }

/-- Class `IOSet`: three cursor lists and, for each, the buffers the cursors were bound from.
Only addresses of live buffers are ever stored as sources. -/
structure IOSet where
  m_constInputs : List DVecIter
  m_incInputs : List DVecIter
  m_outputs : List DVecIter
  m_incInputSources : List BufferAddr
  m_constInputSources : List BufferAddr
  m_outputSources : List BufferAddr
deriving DecidableEq, Repr

/-- The empty set. -/
def IOSet.new : IOSet :=
  { m_constInputs := [], m_incInputs := [], m_outputs := []
    m_incInputSources := [], m_constInputSources := [], m_outputSources := [] }

/-- Method `IOSet::clear()`. -/
def IOSet.clear (s : IOSet) : IOSet :=
  let s := { s with m_constInputs := [] }
  let s := { s with m_incInputs := [] }
  let s := { s with m_outputs := [] }
  let s := { s with m_incInputSources := [] }
  let s := { s with m_constInputSources := [] }
  { s with m_outputSources := [] }

/-- Method `IOSet::addInput(input)`; `mem` gives the buffer stored at an address.  The result
is the new set and the returned cursor (`none` for `nullptr`). -/
def IOSet.addInput (mem : BufferAddr → AudioBuffer) (s : IOSet) (input : BufferPtr) :
    IOSet × Option DVecIter :=
  match input with
  | none => (s, none)
  | some b =>
    if (mem b).m_constant then
      let s := { s with m_constInputs := s.m_constInputs ++ [dataBegin b] }
      let s := { s with m_constInputSources := s.m_constInputSources ++ [b] }
      (s, s.m_constInputs.getLast?)
    else
      let s := { s with m_incInputs := s.m_incInputs ++ [dataBegin b] }
      let s := { s with m_incInputSources := s.m_incInputSources ++ [b] }
      (s, s.m_incInputs.getLast?)

/-- Method `IOSet::addOutput(output)`. -/
def IOSet.addOutput (s : IOSet) (output : BufferAddr) : IOSet × Option DVecIter :=
  let s := { s with m_outputSources := s.m_outputSources ++ [output] }
  let s := { s with m_outputs := s.m_outputs ++ [dataBegin output] }
  (s, s.m_outputs.getLast?)

/-- One loop of `resetPosition`: `for (i = 0; i < n; i++) *cursors[i] = begin of sources[i]`. -/
def resetCursors (sources : List BufferAddr) (n : Nat) (cursors : List DVecIter) :
    Option (List DVecIter) :=
  forLoop (fun i cur =>
    match vecGet sources i with
    | none => none
    | some source => vecModify cur i (fun _ => dataBegin source)) n cursors

/-- Method `IOSet::resetPosition()`. -/
def IOSet.resetPosition (s : IOSet) : Option IOSet :=
  match resetCursors s.m_incInputSources s.m_incInputSources.length s.m_incInputs with
  | none => none
  | some inc =>
    match resetCursors s.m_constInputSources s.m_constInputSources.length s.m_constInputs with
    | none => none
    | some const =>
      match resetCursors s.m_outputSources s.m_outputs.length s.m_outputs with
      | none => none
      | some out => some { s with m_incInputs := inc, m_constInputs := const, m_outputs := out }

/-- Cursor arithmetic `iter += k` on the offset.  The offset is not compared with the size
of the buffer's data: moving a cursor beyond the end is not told apart. -/
def DVecIter.advance (it : DVecIter) (k : Int) : DVecIter :=
  { it with offset := it.offset + k }

/-- Method `IOSet::incrementPosition()`. -/
def IOSet.incrementPosition (s : IOSet) : IOSet :=
  let s := { s with m_incInputs := s.m_incInputs.map (fun it : DVecIter => it.advance 1) }
  { s with m_outputs := s.m_outputs.map (fun it : DVecIter => it.advance 1) }

/-- Method `IOSet::incrementChannel()`; `defaultSamples` is `AudioBuffer::getDefaultSamples()`,
declared in a header. -/
def IOSet.incrementChannel (defaultSamples : Int) (s : IOSet) : IOSet :=
  { s with m_constInputs := s.m_constInputs.map (fun it : DVecIter => it.advance defaultSamples) }

instance (AUTOMATION_INPUTS : Nat) (c : AtomController) : Decidable (c.WF AUTOMATION_INPUTS) := by
  unfold AtomController.WF; infer_instance

instance (heap : Heap) (c : AtomController) (C : ControllerPtr) (o : Int) :
    Decidable (SourceReady heap c C o) := by
  unfold SourceReady; infer_instance

/-- Frame condition on the external automation computation: it leaves the voice's countdown
counter, heartbeat flag and parameter copy alone. -/
def KeepsHeartbeat (calculateAutomation : Atom → Atom) : Prop :=
  ∀ a : Atom,
    (calculateAutomation a).m_updateTimer = a.m_updateTimer ∧
    (calculateAutomation a).m_shouldUpdateParent = a.m_shouldUpdateParent ∧
    (calculateAutomation a).m_parameters = a.m_parameters

/-! ## Index routing as the specification words it -/

/-- A slot of one of the two input tables. -/
inductive InputSlot where
  | primary (index : Int)
  | automation (index : Int)
deriving DecidableEq, Repr

/-- The routing rule in the specification's words: indices below `primaryInputCount` go to the
primary table, the remainder, offset by `primaryInputCount`, go to the automation table. -/
def routeInput (primaryInputCount : Nat) (index : Int) : InputSlot :=
  if index < (primaryInputCount : Int) then InputSlot.primary index
  else InputSlot.automation (index - (primaryInputCount : Int))

/-- Specification of the controller's `linkInput`: the table operation of the routed slot. -/
def AtomController.linkInputSpec (heap : Heap) (c : AtomController) (index : Int)
    (controller : ControllerPtr) (outputIndex : Int) : Option AtomController :=
  match routeInput c.m_parameters.m_numPrimaryInputs index with
  | InputSlot.primary k => c.linkPrimaryInput heap k controller outputIndex
  | InputSlot.automation k => c.linkAutomationInput heap k controller outputIndex

/-- Specification of the controller's `unlinkInput`. -/
def AtomController.unlinkInputSpec (c : AtomController) (index : Int) : Option AtomController :=
  match routeInput c.m_parameters.m_numPrimaryInputs index with
  | InputSlot.primary k => c.unlinkPrimaryInput k
  | InputSlot.automation k => c.unlinkAutomationInput k

/-- Specification of the controller's `getInput`: read the record of the routed slot. -/
def AtomController.getInputSpec (c : AtomController) (index : Int) : Option Link :=
  match routeInput c.m_parameters.m_numPrimaryInputs index with
  | InputSlot.primary k => vecGet c.m_primaryInputs k
  | InputSlot.automation k => vecGet c.m_automationInputs k

/-- Specification of the voice's `linkInput`. -/
def Atom.linkInputSpec (a : Atom) (index : Int) (buffer : BufferPtr) : Option Atom :=
  match routeInput a.m_parameters.m_numPrimaryInputs index with
  | InputSlot.primary k => a.linkPrimaryInput k buffer
  | InputSlot.automation k => a.linkAutomationInput k buffer

/-- Specification of the voice's `unlinkInput`. -/
def Atom.unlinkInputSpec (a : Atom) (index : Int) : Option Atom :=
  match routeInput a.m_parameters.m_numPrimaryInputs index with
  | InputSlot.primary k => a.unlinkPrimaryInput k
  | InputSlot.automation k => a.unlinkAutomationInput k

/-- Example controller with three primary inputs and two automation inputs, not initialised. -/
def exThree : AtomController :=
  AtomController.new 2 (AtomParameters.new 0 3 false 1)

/-- Example heap with no controller in it. -/
def exEmptyHeap : Heap :=
  fun _ => none

/-! ## Controller operations as a transition system -/

/-- The operations a graph owner can apply to an initialised controller, each with the
environment it runs in. -/
inductive Op where
  | linkPrimaryInput (heap : Heap) (index : Int) (controller : ControllerPtr) (outputIndex : Int)
  | linkAutomationInput (heap : Heap) (index : Int) (controller : ControllerPtr) (outputIndex : Int)
  | linkInput (heap : Heap) (index : Int) (controller : ControllerPtr) (outputIndex : Int)
  | unlinkPrimaryInput (index : Int)
  | unlinkAutomationInput (index : Int)
  | unlinkInput (index : Int)
  | cleanupInputsFromAtom (source : ControllerPtr)
  | loadSaveState (state : SaveState)
  | execute (synth : Synth) (calculateAutomation : Atom → Atom)
  | stopControlAnimation

/-- Apply one operation to a controller. -/
def Op.apply : Op → AtomController → Option AtomController
  | Op.linkPrimaryInput heap index controller outputIndex, c =>
    c.linkPrimaryInput heap index controller outputIndex
  | Op.linkAutomationInput heap index controller outputIndex, c =>
    c.linkAutomationInput heap index controller outputIndex
  | Op.linkInput heap index controller outputIndex, c =>
    c.linkInput heap index controller outputIndex
  | Op.unlinkPrimaryInput index, c => c.unlinkPrimaryInput index
  | Op.unlinkAutomationInput index, c => c.unlinkAutomationInput index
  | Op.unlinkInput index, c => c.unlinkInput index
  | Op.cleanupInputsFromAtom source, c => some (c.cleanupInputsFromAtom source)
  | Op.loadSaveState state, c => c.loadSaveState state
  | Op.execute synth calculateAutomation, c => c.execute synth calculateAutomation
  | Op.stopControlAnimation, c => some c.stopControlAnimation

/-- Apply a sequence of operations in order, stopping at the first that fails. -/
def runOps : List Op → AtomController → Option AtomController
  | [], c => some c
  | op :: rest, c => (op.apply c).bind (runOps rest)

/-! ## Advancing a bound set -/

/-- The two advancing calls of a buffer iteration set. -/
inductive Advance where
  | position
  | channel
deriving DecidableEq, Repr

/-- One advancing call: `incrementPosition()` or `incrementChannel()`. -/
def IOSet.step (defaultSamples : Int) (s : IOSet) : Advance → IOSet
  | Advance.position => s.incrementPosition
  | Advance.channel => s.incrementChannel defaultSamples

/-- A sequence of advancing calls, in order. -/
def IOSet.run (defaultSamples : Int) (s : IOSet) (calls : List Advance) : IOSet :=
  calls.foldl (IOSet.step defaultSamples) s

/-- Every cursor list is as long as its list of reset sources. -/
def IOSet.Paired (s : IOSet) : Prop :=
  s.m_incInputs.length = s.m_incInputSources.length ∧
  s.m_constInputs.length = s.m_constInputSources.length ∧
  s.m_outputs.length = s.m_outputSources.length

instance (s : IOSet) : Decidable s.Paired := by
  unfold IOSet.Paired; infer_instance

/-- Example buffer memory with 100 samples per channel: the buffer at output 0 of voice 0 of
controller 1 is constant with four channels, every other buffer is varying with one channel. -/
def exMem : BufferAddr → AudioBuffer :=
  fun b =>
    if b = { controller := 1, atom := 0, output := 0 } then
      { m_constant := true, m_data := List.replicate 400 0 }
    else
      { m_constant := false, m_data := List.replicate 100 0 }

/-- Example set bound to the constant buffer, to one varying input buffer and to one output
buffer, its cursors already moved by three `incrementPosition()` and one
`incrementChannel()`. -/
def exSet : IOSet :=
  ((((IOSet.new.addInput exMem (some { controller := 1, atom := 0, output := 0 })).1.addInput
    exMem (some { controller := 1, atom := 0, output := 1 })).1.addOutput
    { controller := 2, atom := 0, output := 0 }).1.run 100
    [Advance.position, Advance.position, Advance.position, Advance.channel])

/-- Example call sequence: 100 times `incrementPosition()`, then 4 times `incrementChannel()`. -/
def exCalls : List Advance :=
  List.replicate 100 Advance.position ++ List.replicate 4 Advance.channel

/-- Every voice of the controller owns as many output buffers as the controller's parameters
declare (what `Atom::Atom` establishes). -/
def AtomController.OutputsSized (c : AtomController) : Prop :=
  ∀ a ∈ c.m_atoms, (a.m_outputs.length : Int) = c.m_parameters.m_numOutputs

instance (c : AtomController) : Decidable c.OutputsSized := by
  unfold AtomController.OutputsSized; infer_instance

/-! ## One block of a controller, voice by voice -/

/-- The body of the loop of `AtomController::execute()` for voice position `i`. -/
def AtomController.executeVoice (synth : Synth) (calculateAutomation : Atom → Atom) (i : Nat)
    (c : AtomController) : Option AtomController :=
  if synth.isActive i then
    match vecModify c.m_atoms i (Atom.executeWrapper synth calculateAutomation) with
    | none => none
    | some atoms => some { c with m_atoms := atoms }
  else if synth.isStopped i then
    match c.getAtom i with
    | none => none
    | some atom =>
      let r := atom.reset c
      match vecModify r.2.m_atoms i (fun _ => r.1) with
      | none => none
      | some atoms => some { r.2 with m_atoms := atoms }
  else some c

/-- Both link tables have their declared number of records. -/
def AtomController.TablesSized (AUTOMATION_INPUTS : Nat) (c : AtomController) : Prop :=
  c.m_primaryInputs.length = c.m_parameters.m_numPrimaryInputs ∧
  c.m_automationInputs.length = AUTOMATION_INPUTS

instance (AUTOMATION_INPUTS : Nat) (c : AtomController) :
    Decidable (c.TablesSized AUTOMATION_INPUTS) := by
  unfold AtomController.TablesSized; infer_instance

/-! ## Buffer iteration set as a transition system -/

/-- The calls a voice can make on its buffer iteration set. -/
inductive SetOp where
  | addInput (input : BufferPtr)
  | addOutput (output : BufferAddr)
  | clear
  | resetPosition
  | incrementPosition
  | incrementChannel
deriving DecidableEq, Repr

/-- Apply one call to a set; only `resetPosition()` indexes and can therefore fail. -/
def SetOp.apply (mem : BufferAddr → AudioBuffer) (defaultSamples : Int) :
    SetOp → IOSet → Option IOSet
  | SetOp.addInput input, s => some (s.addInput mem input).1
  | SetOp.addOutput output, s => some (s.addOutput output).1
  | SetOp.clear, s => some s.clear
  | SetOp.resetPosition, s => s.resetPosition
  | SetOp.incrementPosition, s => some s.incrementPosition
  | SetOp.incrementChannel, s => some (s.incrementChannel defaultSamples)

/-- Apply a sequence of calls in order, stopping at the first that fails. -/
def runSetOps (mem : BufferAddr → AudioBuffer) (defaultSamples : Int) :
    List SetOp → IOSet → Option IOSet
  | [], s => some s
  | op :: rest, s => (op.apply mem defaultSamples s).bind (runSetOps mem defaultSamples rest)

/-! # Theorems -/

/-! ## Vector lemmas -/

theorem vecGet_bounds {α : Type} {v : List α} {i : Int} {x : α} (h : vecGet v i = some x) :
    0 ≤ i ∧ i.toNat < v.length := by
  unfold vecGet at h
  split at h
  · rename_i h0
    exact ⟨h0, (List.getElem?_eq_some.mp h).1⟩
  · cases h

theorem vecGet_of_lt {α : Type} {v : List α} {i : Int} (h0 : 0 ≤ i) (h1 : i < (v.length : Int)) :
    ∃ x, vecGet v i = some x := by
  have hlt : i.toNat < v.length := by omega
  exact ⟨v[i.toNat], by simp [vecGet, h0, List.getElem?_eq_getElem hlt]⟩

theorem vecModify_some {α : Type} {v : List α} {i : Int} {f : α → α} {t : List α}
    (h : vecModify v i f = some t) : ∃ x, vecGet v i = some x ∧ t = v.set i.toNat (f x) := by
  unfold vecModify at h
  split at h
  · rename_i x hx
    exact ⟨x, hx, by simpa using h.symm⟩
  · cases h

theorem vecModify_of_get {α : Type} {v : List α} {i : Int} {x : α} (f : α → α)
    (h : vecGet v i = some x) : vecModify v i f = some (v.set i.toNat (f x)) := by
  simp [vecModify, h]

theorem vecGet_set_self {α : Type} {v : List α} {i : Int} {x : α} (y : α)
    (h : vecGet v i = some x) : vecGet (v.set i.toNat y) i = some y := by
  obtain ⟨h0, h1⟩ := vecGet_bounds h
  simp [vecGet, h0, h1]

theorem vecGet_set_other {α : Type} (v : List α) {i j : Int} (y : α) (hi : 0 ≤ i) (hj : 0 ≤ j)
    (hne : i ≠ j) : vecGet (v.set i.toNat y) j = vecGet v j := by
  have : i.toNat ≠ j.toNat := by omega
  simp [vecGet, hj, List.getElem?_set_ne this]

theorem linkAtoms_isSome (link : Atom → BufferPtr → Option Atom) (heap : Heap)
    (controller : ControllerPtr) (outputIndex : Int) :
    ∀ (atoms : List Atom) (start : Nat),
      (∀ k : Nat, k < atoms.length →
        (sourceOutput heap controller ((start + k : Nat) : Int) outputIndex).isSome = true) →
      (∀ a ∈ atoms, ∀ b, (link a b).isSome = true) →
      ∃ r, linkAtoms link heap controller outputIndex atoms (start : Int) = some r := by
  intro atoms
  induction atoms with
  | nil => intro _ _ _; exact ⟨[], rfl⟩
  | cons a rest ih =>
    intro start hsrc hlink
    have h0 := hsrc 0 (by simp)
    obtain ⟨buffer, hb⟩ := Option.isSome_iff_exists.mp h0
    obtain ⟨a1, ha1⟩ := Option.isSome_iff_exists.mp (hlink a (by simp) (some buffer))
    obtain ⟨r, hr⟩ := ih (start + 1)
      (fun k hk => by
        have := hsrc (k + 1) (by simpa using hk)
        simpa [Nat.add_assoc, Nat.add_comm 1 k] using this)
      (fun x hx b => hlink x (by simp [hx]) b)
    refine ⟨a1 :: r, ?_⟩
    simp only [Nat.add_zero] at hb
    have hr1 : linkAtoms link heap controller outputIndex rest ((start : Int) + 1) = some r := by
      simpa using hr
    simp [linkAtoms, hb, ha1, hr1]

theorem Atom.linkPrimaryInput_isSome (a : Atom) (index : Int) (b : BufferPtr) (h0 : 0 ≤ index)
    (h1 : index < (a.m_primaryInputs.length : Int)) : (a.linkPrimaryInput index b).isSome = true := by
  obtain ⟨x, hx⟩ := vecGet_of_lt h0 h1
  simp [Atom.linkPrimaryInput, vecModify_of_get _ hx]

/-- C1: on a controller whose tables have the declared sizes and for
`0 ≤ i < primaryInputCount`, whenever `linkPrimaryInput(i, C, o)` completes (for any source
pointer `C` and any output index `o`), `getInput(i)` on the resulting controller returns the
pair `(C, o)`; and the call does complete whenever the source offers output `o` on every voice
position of the controller. -/
theorem linkPrimaryInput_then_getInput (AUTOMATION_INPUTS : Nat) (heap : Heap) (c : AtomController)
    (i : Int) (C : ControllerPtr) (o : Int) (hwf : c.WF AUTOMATION_INPUTS) (h0 : 0 ≤ i)
    (h1 : i < (c.m_parameters.m_numPrimaryInputs : Int)) :
    (∀ c1, c.linkPrimaryInput heap i C o = some c1 → c1.getInput i = some (C, o)) ∧
    (SourceReady heap c C o → ∃ c1, c.linkPrimaryInput heap i C o = some c1) := by
  obtain ⟨hp, _, hatoms⟩ := hwf
  obtain ⟨r, hr⟩ := vecGet_of_lt h0 (by rw [hp]; exact h1)
  have ht1 := vecModify_of_get (fun r : Link => (C, r.2)) hr
  have hr1 := vecGet_set_self (C, r.2) hr
  have ht2 := vecModify_of_get (fun r : Link => (r.1, o)) hr1
  constructor
  · intro c1 h
    unfold AtomController.linkPrimaryInput at h
    rw [ht1] at h
    simp only [ht2] at h
    split at h
    · cases h
    · cases h
      simpa [AtomController.getInput, AtomController.getPrimaryInput, h1] using
        vecGet_set_self (C, o) hr
  · intro hsrc
    obtain ⟨atoms, hl⟩ := linkAtoms_isSome (fun a b => a.linkPrimaryInput i b) heap C o c.m_atoms 0
      (fun k hk => by simpa using hsrc k hk)
      (fun a ha b => Atom.linkPrimaryInput_isSome a i b h0 (by rw [(hatoms a ha).1]; exact h1))
    have hl0 : linkAtoms (fun a b => a.linkPrimaryInput i b) heap C o c.m_atoms 0 = some atoms := by
      simpa using hl
    unfold AtomController.linkPrimaryInput
    rw [ht1]
    simp only [ht2, hl0]
    exact ⟨_, rfl⟩

theorem linkPrimaryInput_then_getInput_witness :
    (∀ c1, exNode.linkPrimaryInput exHeap 0 (some 1) 1 = some c1 → c1.getInput 0 = some (some 1, 1)) ∧
    (SourceReady exHeap exNode (some 1) 1 →
      ∃ c1, exNode.linkPrimaryInput exHeap 0 (some 1) 1 = some c1) :=
  linkPrimaryInput_then_getInput 2 exHeap exNode 0 (some 1) 1 (by decide) (by decide) (by decide)

theorem forEach_isSome {α : Type} (f : α → Option α) :
    ∀ l : List α, (∀ a ∈ l, (f a).isSome = true) → ∃ r, forEach f l = some r := by
  intro l
  induction l with
  | nil => intro _; exact ⟨[], rfl⟩
  | cons a rest ih =>
    intro h
    obtain ⟨y, hy⟩ := Option.isSome_iff_exists.mp (h a (by simp))
    obtain ⟨ys, hys⟩ := ih (fun x hx => h x (by simp [hx]))
    exact ⟨y :: ys, by simp [forEach, hy, hys]⟩

/-- C2 (counterexample): after `linkInput(0, exSource, 1)` and then `unlinkPrimaryInput(0)`,
`getInput(0)` returns the empty source with output index 1, not with the sentinel -1. -/
theorem unlinkPrimaryInput_getInput_not_sentinel :
    (exLinked.bind fun c => (c.unlinkPrimaryInput 0).bind fun c1 => c1.getInput 0)
        = some (none, 1) ∧
    (exLinked.bind fun c => (c.unlinkPrimaryInput 0).bind fun c1 => c1.getInput 0)
        ≠ some (none, -1) := by
  decide

/-- C2 (amended): on a controller whose tables have the declared sizes and for
`0 ≤ i < primaryInputCount`, `unlinkPrimaryInput(i)` completes and `getInput(i)` then returns
the empty source together with the output index that record `i` held before the call. -/
theorem unlinkPrimaryInput_then_getInput (AUTOMATION_INPUTS : Nat) (c : AtomController) (i : Int)
    (hwf : c.WF AUTOMATION_INPUTS) (h0 : 0 ≤ i)
    (h1 : i < (c.m_parameters.m_numPrimaryInputs : Int)) :
    ∃ c1 r, c.unlinkPrimaryInput i = some c1 ∧ vecGet c.m_primaryInputs i = some r ∧
      c1.getInput i = some (none, r.2) := by
  obtain ⟨hp, _, hatoms⟩ := hwf
  obtain ⟨r, hr⟩ := vecGet_of_lt h0 (by rw [hp]; exact h1)
  have ht := vecModify_of_get (fun r : Link => (none, r.2)) hr
  obtain ⟨atoms, hl⟩ := forEach_isSome (fun a : Atom => a.unlinkPrimaryInput i) c.m_atoms
    (fun a ha => Atom.linkPrimaryInput_isSome a i none h0 (by rw [(hatoms a ha).1]; exact h1))
  refine ⟨{ c with m_primaryInputs := c.m_primaryInputs.set i.toNat (none, r.2), m_atoms := atoms },
    r, ?_, hr, ?_⟩
  · unfold AtomController.unlinkPrimaryInput
    rw [ht]
    simp only [hl]
  · simpa [AtomController.getInput, AtomController.getPrimaryInput, h1] using
      vecGet_set_self (none, r.2) hr

theorem unlinkPrimaryInput_then_getInput_witness :
    exLinkedBoth = some exLinkedNode ∧
    exLinkedNode.getInput 0 = some (some 1, 1) ∧
    (∃ c1 r, exLinkedNode.unlinkPrimaryInput 0 = some c1 ∧
      vecGet exLinkedNode.m_primaryInputs 0 = some r ∧ c1.getInput 0 = some (none, r.2)) ∧
    ((exLinkedNode.unlinkPrimaryInput 0).bind fun c1 => c1.getInput 0) = some (none, 1) :=
  ⟨by decide, by decide,
    unlinkPrimaryInput_then_getInput 2 exLinkedNode 0 (by decide) (by decide) (by decide),
    by decide⟩

theorem vecGet_map {α β : Type} (f : α → β) (v : List α) (i : Int) :
    vecGet (v.map f) i = (vecGet v i).map f := by
  unfold vecGet
  split <;> simp

/-- C3: `cleanupInputsFromAtom(C)` keeps both table lengths; in either table a record whose
source was `C` becomes `(empty, -1)` and a record whose source was not `C` is unchanged. -/
theorem cleanupInputsFromAtom_records (c : AtomController) (C : ControllerPtr) :
    (c.cleanupInputsFromAtom C).m_primaryInputs.length = c.m_primaryInputs.length ∧
    (c.cleanupInputsFromAtom C).m_automationInputs.length = c.m_automationInputs.length ∧
    (∀ (k : Int) (r : Link), vecGet c.m_primaryInputs k = some r →
      (r.1 = C → vecGet (c.cleanupInputsFromAtom C).m_primaryInputs k = some (none, -1)) ∧
      (r.1 ≠ C → vecGet (c.cleanupInputsFromAtom C).m_primaryInputs k = some r)) ∧
    (∀ (k : Int) (r : Link), vecGet c.m_automationInputs k = some r →
      (r.1 = C → vecGet (c.cleanupInputsFromAtom C).m_automationInputs k = some (none, -1)) ∧
      (r.1 ≠ C → vecGet (c.cleanupInputsFromAtom C).m_automationInputs k = some r)) := by
  refine ⟨by simp [AtomController.cleanupInputsFromAtom],
    by simp [AtomController.cleanupInputsFromAtom], ?_, ?_⟩
  · intro k r hr
    constructor
    · intro h
      simp [AtomController.cleanupInputsFromAtom, vecGet_map, hr, cleanupRecord, h]
    · intro h
      simp [AtomController.cleanupInputsFromAtom, vecGet_map, hr, cleanupRecord, h]
  · intro k r hr
    constructor
    · intro h
      simp [AtomController.cleanupInputsFromAtom, vecGet_map, hr, cleanupRecord, h]
    · intro h
      simp [AtomController.cleanupInputsFromAtom, vecGet_map, hr, cleanupRecord, h]

/-- C4 (failing input): `exNode`, initialised with two voices and linked to `exSource` by
`linkInput(0, exSource, 1)`.  After `cleanupInputsFromAtom(exSource)` the link record is
`(empty, -1)`, but primary slot 0 of both voices still references output 1 of the matching
voice of `exSource`. -/
theorem cleanupInputsFromAtom_keeps_voice_references :
    (exLinked.map fun c =>
        ((c.cleanupInputsFromAtom (some 1)).m_primaryInputs,
         (c.cleanupInputsFromAtom (some 1)).m_atoms.map fun a => a.m_primaryInputs))
      = some ([(none, -1)],
          [[some { controller := 1, atom := 0, output := 1 }],
           [some { controller := 1, atom := 1, output := 1 }]]) := by
  decide

theorem Atom.executeWrapper_heartbeat (synth : Synth) (calculateAutomation : Atom → Atom)
    (hauto : KeepsHeartbeat calculateAutomation) (a : Atom) (hid : a.m_parameters.m_id = 0) :
    (a.executeWrapper synth calculateAutomation).m_parameters = a.m_parameters ∧
    (a.executeWrapper synth calculateAutomation).m_updateTimer
      = (if a.m_updateTimer = 0 then 5 else a.m_updateTimer - 1) ∧
    (a.executeWrapper synth calculateAutomation).m_shouldUpdateParent
      = decide (a.m_updateTimer = 0) := by
  have f1 : ∀ x, (calculateAutomation x).m_updateTimer = x.m_updateTimer := fun x => (hauto x).1
  have f2 : ∀ x, (calculateAutomation x).m_shouldUpdateParent = x.m_shouldUpdateParent :=
    fun x => (hauto x).2.1
  have f3 : ∀ x, (calculateAutomation x).m_parameters = x.m_parameters := fun x => (hauto x).2.2
  unfold Atom.executeWrapper Atom.execute
  by_cases he : a.m_parameters.m_automationEnabled = true <;>
    by_cases ht : a.m_updateTimer = 0 <;> simp [hid, ht, he, f1, f2, f3]

theorem heartbeat_invariant (synth : Synth) (calculateAutomation : Atom → Atom)
    (hauto : KeepsHeartbeat calculateAutomation) (a : Atom) (hid : a.m_parameters.m_id = 0)
    (ht : a.m_updateTimer = 0) (n : Nat) :
    ((Atom.executeWrapper synth calculateAutomation)^[n + 1] a).m_parameters.m_id = 0 ∧
    ((Atom.executeWrapper synth calculateAutomation)^[n + 1] a).m_updateTimer
      = 5 - ((n % 6 : Nat) : Int) ∧
    ((Atom.executeWrapper synth calculateAutomation)^[n + 1] a).m_shouldUpdateParent
      = decide (n % 6 = 0) := by
  induction n with
  | zero =>
    obtain ⟨h1, h2, h3⟩ := Atom.executeWrapper_heartbeat synth calculateAutomation hauto a hid
    simp [h1, h2, h3, hid, ht]
  | succ k ih =>
    obtain ⟨i1, i2, i3⟩ := ih
    rw [Function.iterate_succ_apply']
    obtain ⟨h1, h2, h3⟩ := Atom.executeWrapper_heartbeat synth calculateAutomation hauto _ i1
    rw [h1, h2, h3, i1, i2]
    refine ⟨rfl, ?_, ?_⟩
    · split <;> omega
    · have : (5 - ((k % 6 : Nat) : Int) = 0) ↔ ((k + 1) % 6 = 0) := by omega
      exact decide_eq_decide.mpr this

/-! ## Construction of voices -/

theorem Atom.new_of_nonneg (AUTOMATION_INPUTS : Nat) (defaultBuffer : AudioBuffer)
    (parent : AtomController) (index : Int) (h : 0 ≤ parent.m_parameters.m_numOutputs) :
    Atom.new AUTOMATION_INPUTS defaultBuffer parent index
      = some (Atom.built AUTOMATION_INPUTS defaultBuffer parent index) := by
  simp [Atom.new, Atom.built, AtomParameters.withId, h]

theorem Atom.new_of_neg (AUTOMATION_INPUTS : Nat) (defaultBuffer : AudioBuffer)
    (parent : AtomController) (index : Int) (h : parent.m_parameters.m_numOutputs < 0) :
    Atom.new AUTOMATION_INPUTS defaultBuffer parent index = none := by
  have : ¬ 0 ≤ parent.m_parameters.m_numOutputs := by omega
  simp [Atom.new, AtomParameters.withId, this]

theorem Atom.new_some {AUTOMATION_INPUTS : Nat} {defaultBuffer : AudioBuffer}
    {parent : AtomController} {index : Int} {a : Atom}
    (h : Atom.new AUTOMATION_INPUTS defaultBuffer parent index = some a) :
    0 ≤ parent.m_parameters.m_numOutputs ∧
    a.m_updateTimer = 0 ∧ a.m_shouldUpdateParent = false ∧
    a.m_parameters = parent.m_parameters.withId index ∧
    a.m_primaryInputs = List.replicate parent.m_parameters.m_numPrimaryInputs none ∧
    a.m_automationInputs = List.replicate AUTOMATION_INPUTS none ∧
    a.m_outputs = List.replicate parent.m_parameters.m_numOutputs.toNat defaultBuffer := by
  by_cases hn : 0 ≤ parent.m_parameters.m_numOutputs
  · rw [Atom.new_of_nonneg _ _ _ _ hn] at h
    cases h
    exact ⟨hn, rfl, rfl, rfl, rfl, rfl, rfl⟩
  · rw [Atom.new_of_neg _ _ _ _ (by omega)] at h
    cases h

/-- C5 (counterexample): on a fresh voice 0, the heartbeat flag after call number 5 is false
although 5 is a multiple of 5 (and it is true after call number 6, which is not). -/
theorem heartbeat_not_every_fifth_block :
    Atom.new 2 exBuffer exNode 0 = some exVoice ∧
    ((Atom.executeWrapper exSynth id)^[5 + 1] exVoice).m_shouldUpdateParent = false ∧
    5 % 5 = 0 ∧
    ((Atom.executeWrapper exSynth id)^[6 + 1] exVoice).m_shouldUpdateParent = true ∧
    6 % 5 ≠ 0 := by
  decide

/-- C5 (amended): for a freshly constructed voice with index 0 on which only
`executeWrapper()` is called, numbering the calls 0, 1, 2, ..., the heartbeat flag after call
`n` is true exactly when `n` is a multiple of 6; the automation computation is assumed not to
touch the counter, the flag or the voice's parameters. -/
theorem heartbeat_every_sixth_block (AUTOMATION_INPUTS : Nat) (defaultBuffer : AudioBuffer)
    (parent : AtomController) (synth : Synth) (calculateAutomation : Atom → Atom)
    (hauto : KeepsHeartbeat calculateAutomation) (a : Atom)
    (hnew : Atom.new AUTOMATION_INPUTS defaultBuffer parent 0 = some a) (n : Nat) :
    ((Atom.executeWrapper synth calculateAutomation)^[n + 1] a).m_shouldUpdateParent = true
      ↔ n % 6 = 0 := by
  obtain ⟨_, ht, _, hp, _⟩ := Atom.new_some hnew
  obtain ⟨_, _, h⟩ := heartbeat_invariant synth calculateAutomation hauto a
    (by rw [hp]; rfl) ht n
  rw [h]
  simp

theorem heartbeat_every_sixth_block_witness :
    Atom.new 2 exBuffer exNode 0 = some exVoice ∧
    (((Atom.executeWrapper exSynth id)^[12 + 1] exVoice).m_shouldUpdateParent = true
      ↔ 12 % 6 = 0) :=
  ⟨by decide,
    heartbeat_every_sixth_block 2 exBuffer exNode exSynth id (fun _ => ⟨rfl, rfl, rfl⟩) exVoice
      (by decide) 12⟩

/-- C6: one call of `reset()` leaves the owning controller as one call of
`stopControlAnimation()` leaves it when the voice index is 0 (one more stop request) and
untouched otherwise (no stop request); afterwards the heartbeat flag is true exactly when the
voice index is 0. -/
theorem reset_stops_animation_once (a : Atom) (m_p : AtomController) :
    (a.reset m_p).2 = (if a.getIndex = 0 then m_p.stopControlAnimation else m_p) ∧
    (a.reset m_p).2.m_automation.stopCalls
      = m_p.m_automation.stopCalls + (if a.getIndex = 0 then 1 else 0) ∧
    ((a.reset m_p).1.m_shouldUpdateParent = true ↔ a.getIndex = 0) := by
  unfold Atom.reset
  by_cases h : a.getIndex = 0 <;>
    simp [h, AtomController.stopControlAnimation, AutomationEngine.stopAutomationAnimation]

theorem toInt_intCast (x : Int) : toInt (x : Rat) = x := by
  simp [toInt]

/-- C7: the state `saveSaveState()` returns for a controller at position `(x, y)` holds exactly
the two values `x` (index 0) and `y` (index 1), and `loadSaveState` of it into a freshly
constructed controller completes and sets that controller's position to `(x, y)`, changing
nothing else. -/
theorem save_then_load_position (AUTOMATION_INPUTS : Nat) (parameters : AtomParameters)
    (c : AtomController) :
    c.saveSaveState.m_values = [(c.m_x : Rat), (c.m_y : Rat)] ∧
    c.saveSaveState.getValue 0 = some (c.m_x : Rat) ∧
    c.saveSaveState.getValue 1 = some (c.m_y : Rat) ∧
    (AtomController.new AUTOMATION_INPUTS parameters).loadSaveState c.saveSaveState
      = some { AtomController.new AUTOMATION_INPUTS parameters with m_x := c.m_x, m_y := c.m_y } := by
  have hv : c.saveSaveState.m_values = [(c.m_x : Rat), (c.m_y : Rat)] := rfl
  have h0 : c.saveSaveState.getValue 0 = some (c.m_x : Rat) := by
    simp [SaveState.getValue, vecGet, hv]
  have h1 : c.saveSaveState.getValue 1 = some (c.m_y : Rat) := by
    simp [SaveState.getValue, vecGet, hv]
  refine ⟨hv, h0, h1, ?_⟩
  unfold AtomController.loadSaveState
  rw [h0]
  simp only [h1, toInt_intCast]

/-- C8: for every index `k`, the controller's `linkInput`, `unlinkInput` and `getInput` and the
voice's `linkInput` and `unlinkInput` are the operations of the slot the specification's rule
routes `k` to: the primary-table operation at `k` when `k < primaryInputCount`, the
automation-table operation at `k - primaryInputCount` otherwise.  With three primary inputs,
index 2 is primary slot 2 and index 3 is automation slot 0, and `linkInput` writes exactly that
record. -/
theorem linkInput_routes_by_index (heap : Heap) (c : AtomController) (a : Atom) (k : Int)
    (C : ControllerPtr) (o : Int) (b : BufferPtr) :
    c.linkInput heap k C o = c.linkInputSpec heap k C o ∧
    c.unlinkInput k = c.unlinkInputSpec k ∧
    c.getInput k = c.getInputSpec k ∧
    a.linkInput k b = a.linkInputSpec k b ∧
    a.unlinkInput k = a.unlinkInputSpec k ∧
    routeInput 3 2 = InputSlot.primary 2 ∧
    routeInput 3 3 = InputSlot.automation 0 ∧
    (exThree.linkInput exEmptyHeap 2 (some 9) 5).map
        (fun c1 => (c1.m_primaryInputs, c1.m_automationInputs))
      = some ([(none, 0), (none, 0), (some 9, 5)], [(none, 0), (none, 0)]) ∧
    (exThree.linkInput exEmptyHeap 3 (some 9) 5).map
        (fun c1 => (c1.m_primaryInputs, c1.m_automationInputs))
      = some ([(none, 0), (none, 0), (none, 0)], [(some 9, 5), (none, 0)]) := by
  refine ⟨?_, ?_, ?_, ?_, ?_, by decide, by decide, by decide, by decide⟩
  · unfold AtomController.linkInput AtomController.linkInputSpec routeInput
    split <;> rfl
  · unfold AtomController.unlinkInput AtomController.unlinkInputSpec routeInput
    split <;> rfl
  · unfold AtomController.getInput AtomController.getInputSpec routeInput
    split <;> rfl
  · unfold Atom.linkInput Atom.linkInputSpec routeInput
    split <;> rfl
  · unfold Atom.unlinkInput Atom.unlinkInputSpec routeInput
    split <;> rfl

/-! ## Voice count -/

theorem vecModify_length {α : Type} {v t : List α} {i : Int} {f : α → α}
    (h : vecModify v i f = some t) : t.length = v.length := by
  obtain ⟨x, _, rfl⟩ := vecModify_some h
  simp

theorem forLoop_preserves {σ : Type} (body : Nat → σ → Option σ) (P : σ → Prop)
    (hbody : ∀ i s s1, body i s = some s1 → P s → P s1) :
    ∀ (n : Nat) (s s1 : σ), forLoop body n s = some s1 → P s → P s1 := by
  intro n
  induction n with
  | zero =>
    intro s s1 h hP
    simp only [forLoop, Option.some.injEq] at h
    exact h ▸ hP
  | succ k ih =>
    intro s s1 h hP
    simp only [forLoop] at h
    obtain ⟨m, hm, hb⟩ := Option.bind_eq_some.mp h
    exact hbody k m s1 hb (ih s m hm hP)

theorem forEach_length {α : Type} (f : α → Option α) :
    ∀ (l r : List α), forEach f l = some r → r.length = l.length := by
  intro l
  induction l with
  | nil =>
    intro r h
    simp only [forEach, Option.some.injEq] at h
    simp [← h]
  | cons x rest ih =>
    intro r h
    unfold forEach at h
    split at h
    · cases h
    · split at h
      · cases h
      · rename_i ys hys
        cases h
        simp [ih ys hys]

theorem linkAtoms_length (link : Atom → BufferPtr → Option Atom) (heap : Heap)
    (controller : ControllerPtr) (outputIndex : Int) :
    ∀ (atoms r : List Atom) (start : Int),
      linkAtoms link heap controller outputIndex atoms start = some r → r.length = atoms.length := by
  intro atoms
  induction atoms with
  | nil =>
    intro r start h
    simp only [linkAtoms, Option.some.injEq] at h
    simp [← h]
  | cons x rest ih =>
    intro r start h
    unfold linkAtoms at h
    split at h
    · cases h
    · split at h
      · cases h
      · split at h
        · cases h
        · rename_i rest1 hrest
          cases h
          simp [ih rest1 _ hrest]

theorem linkPrimaryInput_atoms_length {heap : Heap} {c c1 : AtomController} {i : Int}
    {C : ControllerPtr} {o : Int} (h : c.linkPrimaryInput heap i C o = some c1) :
    c1.m_atoms.length = c.m_atoms.length := by
  unfold AtomController.linkPrimaryInput at h
  split at h
  · cases h
  · split at h
    · cases h
    · split at h
      · cases h
      · rename_i atoms hatoms
        cases h
        exact linkAtoms_length _ _ _ _ _ _ _ hatoms

theorem linkAutomationInput_atoms_length {heap : Heap} {c c1 : AtomController} {i : Int}
    {C : ControllerPtr} {o : Int} (h : c.linkAutomationInput heap i C o = some c1) :
    c1.m_atoms.length = c.m_atoms.length := by
  unfold AtomController.linkAutomationInput at h
  split at h
  · cases h
  · split at h
    · cases h
    · split at h
      · cases h
      · rename_i atoms hatoms
        cases h
        exact linkAtoms_length _ _ _ _ _ _ _ hatoms

theorem unlinkPrimaryInput_atoms_length {c c1 : AtomController} {i : Int}
    (h : c.unlinkPrimaryInput i = some c1) : c1.m_atoms.length = c.m_atoms.length := by
  unfold AtomController.unlinkPrimaryInput at h
  split at h
  · cases h
  · split at h
    · cases h
    · rename_i atoms hatoms
      cases h
      exact forEach_length _ _ _ hatoms

theorem unlinkAutomationInput_atoms_length {c c1 : AtomController} {i : Int}
    (h : c.unlinkAutomationInput i = some c1) : c1.m_atoms.length = c.m_atoms.length := by
  unfold AtomController.unlinkAutomationInput at h
  split at h
  · cases h
  · split at h
    · cases h
    · rename_i atoms hatoms
      cases h
      exact forEach_length _ _ _ hatoms

theorem loadSaveState_atoms {c c1 : AtomController} {state : SaveState}
    (h : c.loadSaveState state = some c1) : c1.m_atoms = c.m_atoms := by
  unfold AtomController.loadSaveState at h
  split at h
  · cases h
  · split at h
    · cases h
    · cases h
      rfl

theorem Atom.reset_parent_atoms (a : Atom) (m_p : AtomController) :
    (a.reset m_p).2.m_atoms = m_p.m_atoms := by
  by_cases h : a.getIndex = 0 <;> simp [Atom.reset, h, AtomController.stopControlAnimation]

theorem execute_atoms_length {synth : Synth} {calculateAutomation : Atom → Atom}
    {c c1 : AtomController} (h : c.execute synth calculateAutomation = some c1) :
    c1.m_atoms.length = c.m_atoms.length := by
  unfold AtomController.execute at h
  refine forLoop_preserves _ (fun s => s.m_atoms.length = c.m_atoms.length) ?_ _ _ _ h rfl
  intro i s s1 hb hs
  split at hb
  · split at hb
    · cases hb
    · rename_i atoms hatoms
      cases hb
      exact (vecModify_length hatoms).trans hs
  · split at hb
    · split at hb
      · cases hb
      · rename_i atom _
        simp only at hb
        split at hb
        · cases hb
        · rename_i atoms hatoms
          cases hb
          rw [← hs, ← Atom.reset_parent_atoms atom s]
          exact vecModify_length hatoms
    · cases hb
      exact hs

theorem Op.apply_atoms_length (op : Op) (c c1 : AtomController) (h : op.apply c = some c1) :
    c1.m_atoms.length = c.m_atoms.length := by
  cases op with
  | linkPrimaryInput heap index controller outputIndex => exact linkPrimaryInput_atoms_length h
  | linkAutomationInput heap index controller outputIndex =>
    exact linkAutomationInput_atoms_length h
  | linkInput heap index controller outputIndex =>
    simp only [Op.apply, AtomController.linkInput] at h
    split at h
    · exact linkPrimaryInput_atoms_length h
    · exact linkAutomationInput_atoms_length h
  | unlinkPrimaryInput index => exact unlinkPrimaryInput_atoms_length h
  | unlinkAutomationInput index => exact unlinkAutomationInput_atoms_length h
  | unlinkInput index =>
    simp only [Op.apply, AtomController.unlinkInput] at h
    split at h
    · exact unlinkPrimaryInput_atoms_length h
    · exact unlinkAutomationInput_atoms_length h
  | cleanupInputsFromAtom source =>
    simp only [Op.apply, Option.some.injEq] at h
    rw [← h]
    rfl
  | loadSaveState state => rw [loadSaveState_atoms h]
  | execute synth calculateAutomation => exact execute_atoms_length h
  | stopControlAnimation =>
    simp only [Op.apply, Option.some.injEq] at h
    rw [← h]
    rfl

theorem runOps_atoms_length :
    ∀ (ops : List Op) (c c1 : AtomController), runOps ops c = some c1 →
      c1.m_atoms.length = c.m_atoms.length := by
  intro ops
  induction ops with
  | nil =>
    intro c c1 h
    simp only [runOps, Option.some.injEq] at h
    rw [h]
  | cons op rest ih =>
    intro c c1 h
    simp only [runOps] at h
    obtain ⟨m, hm, hr⟩ := Option.bind_eq_some.mp h
    rw [ih m c1 hr, Op.apply_atoms_length op c m hm]

theorem filterMap_all_some {α β : Type} (f : α → Option β) (g : α → β)
    (h : ∀ x, f x = some (g x)) : ∀ l : List α, l.filterMap f = l.map g := by
  intro l
  induction l with
  | nil => rfl
  | cons x rest ih => simp [List.filterMap_cons, h, ih]

theorem filterMap_all_none {α β : Type} (f : α → Option β) (h : ∀ x, f x = none) :
    ∀ l : List α, l.filterMap f = [] := by
  intro l
  induction l with
  | nil => rfl
  | cons x rest ih => simp [List.filterMap_cons, h, ih]

theorem init_loop_returned (AUTOMATION_INPUTS : Nat) (defaultBuffer : AudioBuffer)
    (c : AtomController) (h : 0 ≤ c.m_parameters.m_numOutputs) :
    ∀ n : Nat,
      forLoopCatch (fun (i : Nat) (c : AtomController) =>
        match c.createAtom AUTOMATION_INPUTS defaultBuffer i with
        | none => none
        | some atom => some { c with m_atoms := c.m_atoms ++ [atom] }) n c
      = Outcome.returned { c with
          m_atoms := c.m_atoms ++ (List.range n).map
            (fun i : Nat => Atom.built AUTOMATION_INPUTS defaultBuffer c (i : Int)) } := by
  intro n
  induction n with
  | zero => simp [forLoopCatch]
  | succ k ih =>
    rw [forLoopCatch, ih]
    simp [AtomController.createAtom, Atom.new, Atom.built, AtomParameters.withId, h,
      List.range_succ]

theorem init_loop_threw (AUTOMATION_INPUTS : Nat) (defaultBuffer : AudioBuffer)
    (c : AtomController) (h : c.m_parameters.m_numOutputs < 0) :
    ∀ n : Nat,
      forLoopCatch (fun (i : Nat) (c : AtomController) =>
        match c.createAtom AUTOMATION_INPUTS defaultBuffer i with
        | none => none
        | some atom => some { c with m_atoms := c.m_atoms ++ [atom] }) (n + 1) c
      = Outcome.threw c := by
  intro n
  induction n with
  | zero => simp [forLoopCatch, AtomController.createAtom, Atom.new_of_neg, h]
  | succ k ih =>
    rw [forLoopCatch, ih]

theorem init_returned (AUTOMATION_INPUTS : Nat) (defaultBuffer : AudioBuffer) (synth : Synth)
    (c : AtomController) (h : 0 ≤ c.m_parameters.m_numOutputs ∨ synth.m_polyphony.toNat = 0) :
    c.init AUTOMATION_INPUTS defaultBuffer synth
      = Outcome.returned { c with
          m_atoms := c.m_atoms ++ (List.range synth.m_polyphony.toNat).map
            (fun i : Nat => Atom.built AUTOMATION_INPUTS defaultBuffer c (i : Int)) } := by
  unfold AtomController.init
  rcases h with h | h
  · exact init_loop_returned AUTOMATION_INPUTS defaultBuffer c h _
  · rw [h]
    simp [forLoopCatch]

theorem init_threw (AUTOMATION_INPUTS : Nat) (defaultBuffer : AudioBuffer) (synth : Synth)
    (c : AtomController) (h : c.m_parameters.m_numOutputs < 0) (hp : 0 < synth.m_polyphony) :
    c.init AUTOMATION_INPUTS defaultBuffer synth = Outcome.threw c := by
  unfold AtomController.init
  obtain ⟨k, hk⟩ : ∃ k, synth.m_polyphony.toNat = k + 1 := ⟨synth.m_polyphony.toNat - 1, by omega⟩
  rw [hk]
  exact init_loop_threw AUTOMATION_INPUTS defaultBuffer c h k

theorem init_state (AUTOMATION_INPUTS : Nat) (defaultBuffer : AudioBuffer) (synth : Synth)
    (c : AtomController) :
    (c.init AUTOMATION_INPUTS defaultBuffer synth).state
      = { c with
          m_atoms := c.m_atoms ++ (List.range synth.m_polyphony.toNat).filterMap
            (fun i : Nat => Atom.new AUTOMATION_INPUTS defaultBuffer c (i : Int)) } := by
  by_cases h : 0 ≤ c.m_parameters.m_numOutputs
  · rw [init_returned _ _ _ _ (Or.inl h),
      filterMap_all_some _ _ (fun i : Nat => Atom.new_of_nonneg _ _ c (i : Int) h)]
    rfl
  · have hneg : c.m_parameters.m_numOutputs < 0 := by omega
    rw [filterMap_all_none _ (fun i : Nat => Atom.new_of_neg _ _ c (i : Int) hneg)]
    by_cases hp : 0 < synth.m_polyphony
    · rw [init_threw _ _ _ _ hneg hp]
      simp [Outcome.state]
    · have h0 : synth.m_polyphony.toNat = 0 := by omega
      rw [init_returned _ _ _ _ (Or.inr h0), h0]
      simp [Outcome.state]

/-- C9 (counterexample): a freshly constructed controller whose parameters declare -1
outputs, host polyphony 2: `init()` throws out of the first `createAtom` and leaves the
controller without any voice. -/
theorem init_throws_for_negative_output_count :
    (AtomController.new 2 exBadParams).init 2 exBuffer exSynth
        = Outcome.threw (AtomController.new 2 exBadParams) ∧
    ((AtomController.new 2 exBadParams).init 2 exBuffer exSynth).state.m_atoms.length = 0 ∧
    exSynth.m_polyphony = 2 := by
  decide

/-- C9 (amended): for a freshly constructed controller whose parameters declare a
non-negative output count (or when the polyphony is 0) and host polyphony `p ≥ 0`, one
`init()` returns with exactly `p` voices, voice `i` being the voice constructed for index `i`
(so its parameter copy is the template with id `i`); and any sequence of link, unlink,
`cleanupInputsFromAtom`, `loadSaveState`, `execute` and `stopControlAnimation` calls that
completes leaves the number of voices equal to `p`. -/
theorem init_voice_count (AUTOMATION_INPUTS : Nat) (defaultBuffer : AudioBuffer) (synth : Synth)
    (parameters : AtomParameters) (hp : 0 ≤ synth.m_polyphony)
    (hout : 0 ≤ parameters.m_numOutputs ∨ synth.m_polyphony = 0) :
    ∃ c, (AtomController.new AUTOMATION_INPUTS parameters).init AUTOMATION_INPUTS defaultBuffer
        synth = Outcome.returned c ∧
      ((c.m_atoms.length : Nat) : Int) = synth.m_polyphony ∧
      (∀ i : Int, 0 ≤ i → i < synth.m_polyphony →
        ∃ a, c.getAtom i = some a ∧
          Atom.new AUTOMATION_INPUTS defaultBuffer
            (AtomController.new AUTOMATION_INPUTS parameters) i = some a ∧
          a.m_parameters = parameters.withId i ∧ a.m_parameters.m_id = i) ∧
      (∀ (ops : List Op) (c1 : AtomController), runOps ops c = some c1 →
        ((c1.m_atoms.length : Nat) : Int) = synth.m_polyphony) := by
  have hret := init_returned AUTOMATION_INPUTS defaultBuffer synth
    (AtomController.new AUTOMATION_INPUTS parameters)
    (hout.imp (fun h => h) (fun h => by omega))
  have hlen : (((([] : List Atom) ++ (List.range synth.m_polyphony.toNat).map
      (fun i : Nat => Atom.built AUTOMATION_INPUTS defaultBuffer
        (AtomController.new AUTOMATION_INPUTS parameters) (i : Int))).length : Nat) : Int)
      = synth.m_polyphony := by
    simp [Int.toNat_of_nonneg hp]
  refine ⟨_, hret, hlen, ?_, ?_⟩
  · intro i h0 h1
    have hnn : 0 ≤ parameters.m_numOutputs := by
      rcases hout with h | h
      · exact h
      · omega
    have hi : i.toNat < synth.m_polyphony.toNat := by omega
    refine ⟨Atom.built AUTOMATION_INPUTS defaultBuffer
      (AtomController.new AUTOMATION_INPUTS parameters) i, ?_,
      Atom.new_of_nonneg _ _ _ _ hnn, rfl, rfl⟩
    simp [AtomController.getAtom, vecGet, h0, hi, Int.toNat_of_nonneg h0, AtomController.new]
  · intro ops c1 h
    rw [runOps_atoms_length ops _ c1 h]
    exact hlen

theorem init_voice_count_witness :
    ∃ c, (AtomController.new 2 exParams).init 2 exBuffer exSynth = Outcome.returned c ∧
      ((c.m_atoms.length : Nat) : Int) = exSynth.m_polyphony ∧
      (∀ i : Int, 0 ≤ i → i < exSynth.m_polyphony →
        ∃ a, c.getAtom i = some a ∧
          Atom.new 2 exBuffer (AtomController.new 2 exParams) i = some a ∧
          a.m_parameters = exParams.withId i ∧ a.m_parameters.m_id = i) ∧
      (∀ (ops : List Op) (c1 : AtomController), runOps ops c = some c1 →
        ((c1.m_atoms.length : Nat) : Int) = exSynth.m_polyphony) :=
  init_voice_count 2 exBuffer exSynth exParams (by decide) (by decide)

/-! ## Cursor positions -/

theorem resetCursors_getElem (sources : List BufferAddr) (cursors : List DVecIter) :
    ∀ n : Nat, n ≤ sources.length → n ≤ cursors.length →
      ∃ r, resetCursors sources n cursors = some r ∧ r.length = cursors.length ∧
        ∀ j : Nat, r[j]? = if j < n then (sources[j]?).map dataBegin else cursors[j]? := by
  intro n
  induction n with
  | zero =>
    intro _ _
    exact ⟨cursors, rfl, rfl, fun j => by simp⟩
  | succ k ih =>
    intro hs hc
    obtain ⟨r, hr, hlen, hget⟩ := ih (by omega) (by omega)
    have hk : k < sources.length := by omega
    have hkr : k < r.length := by omega
    have hsrc : vecGet sources (k : Int) = some sources[k] := by
      simp [vecGet, List.getElem?_eq_getElem hk]
    have hcur : vecGet r (k : Int) = some r[k] := by
      simp [vecGet, List.getElem?_eq_getElem hkr]
    refine ⟨r.set k (dataBegin sources[k]), ?_, by simp [hlen], ?_⟩
    · unfold resetCursors at hr ⊢
      simp only [forLoop, hr, Option.some_bind, hsrc]
      rw [vecModify_of_get _ hcur]
      simp
    · intro j
      by_cases hjk : k = j
      · subst hjk
        simp [hkr, List.getElem?_eq_getElem hk]
      · rw [List.getElem?_set_ne hjk, hget j]
        by_cases hlt : j < k
        · have : j < k + 1 := by omega
          simp [hlt, this]
        · have : ¬ j < k + 1 := by omega
          simp [hlt, this]

theorem resetCursors_all (sources : List BufferAddr) (cursors : List DVecIter)
    (h : cursors.length = sources.length) :
    resetCursors sources sources.length cursors = some (sources.map dataBegin) ∧
    resetCursors sources cursors.length cursors = some (sources.map dataBegin) := by
  obtain ⟨r, hr, hlen, hget⟩ := resetCursors_getElem sources cursors sources.length (le_refl _)
    (by omega)
  have : r = sources.map dataBegin := by
    apply List.ext_getElem?
    intro j
    rw [hget j]
    by_cases hj : j < sources.length
    · simp [hj]
    · have h1 : sources.length ≤ j := by omega
      have h2 : cursors.length ≤ j := by omega
      simp [hj, List.getElem?_eq_none h1, List.getElem?_eq_none h2]
  rw [this] at hr
  exact ⟨hr, by rw [h]; exact hr⟩

theorem DVecIter.advance_advance (it : DVecIter) (a b : Int) :
    (it.advance a).advance b = it.advance (a + b) := by
  simp [DVecIter.advance, Int.add_assoc]

theorem DVecIter.advance_zero (it : DVecIter) : it.advance 0 = it := by
  simp [DVecIter.advance]

theorem IOSet.run_cursors (defaultSamples : Int) :
    ∀ (calls : List Advance) (s : IOSet),
      (s.run defaultSamples calls).m_incInputs
        = s.m_incInputs.map (fun it : DVecIter => it.advance (calls.count Advance.position)) ∧
      (s.run defaultSamples calls).m_outputs
        = s.m_outputs.map (fun it : DVecIter => it.advance (calls.count Advance.position)) ∧
      (s.run defaultSamples calls).m_constInputs
        = s.m_constInputs.map
            (fun it : DVecIter => it.advance ((calls.count Advance.channel : Nat) * defaultSamples)) ∧
      (s.run defaultSamples calls).m_incInputSources = s.m_incInputSources ∧
      (s.run defaultSamples calls).m_constInputSources = s.m_constInputSources ∧
      (s.run defaultSamples calls).m_outputSources = s.m_outputSources := by
  intro calls
  induction calls with
  | nil =>
    intro s
    simp [IOSet.run, DVecIter.advance_zero]
  | cons call rest ih =>
    intro s
    obtain ⟨h1, h2, h3, h4, h5, h6⟩ := ih (s.step defaultSamples call)
    have hrun : s.run defaultSamples (call :: rest) = (s.step defaultSamples call).run defaultSamples rest := rfl
    rw [hrun, h1, h2, h3, h4, h5, h6]
    cases call with
    | position =>
      simp [IOSet.step, IOSet.incrementPosition, DVecIter.advance_advance, Function.comp_def,
        Int.add_comm]
    | channel =>
      refine ⟨by simp [IOSet.step, IOSet.incrementChannel], by simp [IOSet.step, IOSet.incrementChannel], ?_, rfl, rfl, rfl⟩
      simp only [IOSet.step, IOSet.incrementChannel, List.map_map, Function.comp_def,
        DVecIter.advance_advance]
      congr 1
      funext it
      congr 1
      simp [List.count_cons]
      ring

/-- C10: for a set whose cursor lists are as long as their source lists, `resetPosition()`
completes, and after it and any sequence of `incrementPosition()` / `incrementChannel()` calls
containing `n` of the first and `m` of the second, every varying-input cursor and every output
cursor stands at offset `n` from the start of its buffer's data and every constant-input
cursor at offset `m * defaultSamples`.  One `incrementPosition()` adds 1 to the offset of
every varying-input and output cursor and leaves the constant cursors alone; one
`incrementChannel()` adds `defaultSamples` to the offset of every constant cursor and leaves
the varying and output cursors alone. -/
theorem cursors_after_reset_and_advance (defaultSamples : Int) (s : IOSet) (hs : s.Paired)
    (calls : List Advance) :
    (∃ s0, s.resetPosition = some s0 ∧
      (s0.run defaultSamples calls).m_incInputs = s.m_incInputSources.map
        (fun b => ({ buffer := b, offset := ((calls.count Advance.position : Nat) : Int) }
          : DVecIter)) ∧
      (s0.run defaultSamples calls).m_outputs = s.m_outputSources.map
        (fun b => ({ buffer := b, offset := ((calls.count Advance.position : Nat) : Int) }
          : DVecIter)) ∧
      (s0.run defaultSamples calls).m_constInputs = s.m_constInputSources.map
        (fun b => ({ buffer := b
                     offset := ((calls.count Advance.channel : Nat) : Int) * defaultSamples }
          : DVecIter))) ∧
    (∀ t : IOSet,
      t.incrementPosition.m_constInputs = t.m_constInputs ∧
      t.incrementPosition.m_incInputs = t.m_incInputs.map
        (fun it => ({ buffer := it.buffer, offset := it.offset + 1 } : DVecIter)) ∧
      t.incrementPosition.m_outputs = t.m_outputs.map
        (fun it => ({ buffer := it.buffer, offset := it.offset + 1 } : DVecIter))) ∧
    (∀ t : IOSet,
      (t.incrementChannel defaultSamples).m_incInputs = t.m_incInputs ∧
      (t.incrementChannel defaultSamples).m_outputs = t.m_outputs ∧
      (t.incrementChannel defaultSamples).m_constInputs = t.m_constInputs.map
        (fun it => ({ buffer := it.buffer, offset := it.offset + defaultSamples } : DVecIter))) := by
  obtain ⟨h1, h2, h3⟩ := hs
  refine ⟨?_, fun t => ⟨rfl, rfl, rfl⟩, fun t => ⟨rfl, rfl, rfl⟩⟩
  have r1 := (resetCursors_all s.m_incInputSources s.m_incInputs h1).1
  have r2 := (resetCursors_all s.m_constInputSources s.m_constInputs h2).1
  have r3 := (resetCursors_all s.m_outputSources s.m_outputs h3).2
  refine ⟨{ s with m_incInputs := s.m_incInputSources.map dataBegin,
                   m_constInputs := s.m_constInputSources.map dataBegin,
                   m_outputs := s.m_outputSources.map dataBegin }, ?_, ?_⟩
  · unfold IOSet.resetPosition
    rw [r1]
    simp only [r2, r3]
  · obtain ⟨g1, g2, g3, _, _, _⟩ := IOSet.run_cursors defaultSamples calls
      { s with m_incInputs := s.m_incInputSources.map dataBegin,
               m_constInputs := s.m_constInputSources.map dataBegin,
               m_outputs := s.m_outputSources.map dataBegin }
    rw [g1, g2, g3]
    simp [List.map_map, Function.comp_def, DVecIter.advance, dataBegin]

set_option maxRecDepth 8000 in
theorem cursors_after_reset_and_advance_witness :
    exSet.m_incInputs = [{ buffer := { controller := 1, atom := 0, output := 1 }, offset := 3 }] ∧
    exSet.m_outputs = [{ buffer := { controller := 2, atom := 0, output := 0 }, offset := 3 }] ∧
    exSet.m_constInputs
      = [{ buffer := { controller := 1, atom := 0, output := 0 }, offset := 100 }] ∧
    ∃ s0, exSet.resetPosition = some s0 ∧
      (s0.run 100 exCalls).m_incInputs
        = [{ buffer := { controller := 1, atom := 0, output := 1 }, offset := 100 }] ∧
      (s0.run 100 exCalls).m_outputs
        = [{ buffer := { controller := 2, atom := 0, output := 0 }, offset := 100 }] ∧
      (s0.run 100 exCalls).m_constInputs
        = [{ buffer := { controller := 1, atom := 0, output := 0 }, offset := 400 }] :=
  match (cursors_after_reset_and_advance 100 exSet (by decide) exCalls).1 with
  | ⟨s0, h0, h1, h2, h3⟩ =>
    ⟨by decide, by decide, by decide, s0, h0, h1.trans (by decide), h2.trans (by decide),
      h3.trans (by decide)⟩

/-! ## Voice alignment of links -/

theorem linkAtoms_getElem (link : Atom → BufferPtr → Option Atom) (heap : Heap)
    (controller : ControllerPtr) (outputIndex : Int) :
    ∀ (atoms r : List Atom) (start : Int),
      linkAtoms link heap controller outputIndex atoms start = some r →
      ∀ (i : Nat) (a : Atom), atoms[i]? = some a →
        ∃ buffer a1, sourceOutput heap controller (start + (i : Int)) outputIndex = some buffer ∧
          link a (some buffer) = some a1 ∧ r[i]? = some a1 := by
  intro atoms
  induction atoms with
  | nil =>
    intro r start _ i a ha
    simp at ha
  | cons x rest ih =>
    intro r start h i a ha
    unfold linkAtoms at h
    split at h
    · cases h
    · rename_i buffer hbuf
      split at h
      · cases h
      · rename_i x1 hx1
        split at h
        · cases h
        · rename_i rest1 hrest
          cases h
          cases i with
          | zero =>
            simp only [List.getElem?_cons_zero, Option.some.injEq] at ha
            subst ha
            exact ⟨buffer, x1, by simpa using hbuf, hx1, by simp⟩
          | succ j =>
            simp only [List.getElem?_cons_succ] at ha
            obtain ⟨b, a1, hb, hl, hr⟩ := ih rest1 (start + 1) hrest j a ha
            refine ⟨b, a1, ?_, hl, by simpa using hr⟩
            have : start + ((j + 1 : Nat) : Int) = start + 1 + (j : Int) := by
              push_cast; ring
            rw [this]
            exact hb

theorem sourceOutput_some {heap : Heap} {controller : ControllerPtr} {k o : Int}
    {buffer : BufferAddr} (h : sourceOutput heap controller k o = some buffer) :
    ∃ addr, controller = some addr ∧
      buffer = { controller := addr, atom := k.toNat, output := o.toNat } := by
  unfold sourceOutput at h
  split at h
  · cases h
  · rename_i addr
    split at h
    · cases h
    · split at h
      · cases h
      · unfold Atom.getOutput at h
        split at h
        · cases h
          exact ⟨addr, rfl, rfl⟩
        · cases h

theorem sourceReady_of_fits {heap : Heap} {c src : AtomController} {addr : Nat} {o : Int}
    (hheap : heap addr = some src) (hvoices : c.m_atoms.length ≤ src.m_atoms.length)
    (hout : src.OutputsSized) (ho0 : 0 ≤ o) (ho1 : o < (src.m_parameters.m_numOutputs : Int)) :
    SourceReady heap c (some addr) o := by
  intro k hk
  have hks : k < src.m_atoms.length := by omega
  have hat : src.getAtom (k : Int) = some src.m_atoms[k] := by
    simp [AtomController.getAtom, vecGet, List.getElem?_eq_getElem hks]
  have hlen := hout src.m_atoms[k] (List.getElem_mem hks)
  have hlt : o < ((src.m_atoms[k].m_outputs.length : Nat) : Int) := by rw [hlen]; exact ho1
  obtain ⟨x, hx⟩ := vecGet_of_lt ho0 hlt
  simp [sourceOutput, hheap, hat, Atom.getOutput, hx]

theorem Atom.primarySlot_stored {a a1 : Atom} {index : Int} {b : BufferPtr}
    (h : a.linkPrimaryInput index b = some a1) :
    a1 = { a with m_primaryInputs := a.m_primaryInputs.set index.toNat b } ∧
    vecGet a1.m_primaryInputs index = some b := by
  unfold Atom.linkPrimaryInput at h
  split at h
  · rename_i t ht
    cases h
    obtain ⟨x, hx, rfl⟩ := vecModify_some ht
    exact ⟨rfl, vecGet_set_self b hx⟩
  · cases h

theorem Atom.automationSlot_stored {a a1 : Atom} {index : Int} {b : BufferPtr}
    (h : a.linkAutomationInput index b = some a1) :
    a1 = { a with m_automationInputs := a.m_automationInputs.set index.toNat b } ∧
    vecGet a1.m_automationInputs index = some b := by
  unfold Atom.linkAutomationInput at h
  split at h
  · rename_i t ht
    cases h
    obtain ⟨x, hx, rfl⟩ := vecModify_some ht
    exact ⟨rfl, vecGet_set_self b hx⟩
  · cases h

theorem Atom.linkAutomationInput_isSome (a : Atom) (index : Int) (b : BufferPtr) (h0 : 0 ≤ index)
    (h1 : index < (a.m_automationInputs.length : Int)) :
    (a.linkAutomationInput index b).isSome = true := by
  obtain ⟨x, hx⟩ := vecGet_of_lt h0 h1
  simp [Atom.linkAutomationInput, vecModify_of_get _ hx]

theorem linkPrimaryInput_some {heap : Heap} {c c1 : AtomController} {i : Int}
    {C : ControllerPtr} {o : Int} (h : c.linkPrimaryInput heap i C o = some c1) :
    ∃ r atoms, vecGet c.m_primaryInputs i = some r ∧
      linkAtoms (fun a b => a.linkPrimaryInput i b) heap C o c.m_atoms 0 = some atoms ∧
      c1 = { c with m_primaryInputs := c.m_primaryInputs.set i.toNat (C, o), m_atoms := atoms } := by
  unfold AtomController.linkPrimaryInput at h
  split at h
  · cases h
  · rename_i t1 ht1
    obtain ⟨r, hr, rfl⟩ := vecModify_some ht1
    split at h
    · cases h
    · rename_i t2 ht2
      obtain ⟨r2, hr2, rfl⟩ := vecModify_some ht2
      rw [vecGet_set_self (C, r.2) hr] at hr2
      cases hr2
      split at h
      · cases h
      · rename_i atoms hatoms
        cases h
        exact ⟨r, atoms, hr, hatoms, by simp⟩

theorem linkAutomationInput_some {heap : Heap} {c c1 : AtomController} {i : Int}
    {C : ControllerPtr} {o : Int} (h : c.linkAutomationInput heap i C o = some c1) :
    ∃ r atoms, vecGet c.m_automationInputs i = some r ∧
      linkAtoms (fun a b => a.linkAutomationInput i b) heap C o c.m_atoms 0 = some atoms ∧
      c1 = { c with m_automationInputs := c.m_automationInputs.set i.toNat (C, o),
                    m_atoms := atoms } := by
  unfold AtomController.linkAutomationInput at h
  split at h
  · cases h
  · rename_i t1 ht1
    obtain ⟨r, hr, rfl⟩ := vecModify_some ht1
    split at h
    · cases h
    · rename_i t2 ht2
      obtain ⟨r2, hr2, rfl⟩ := vecModify_some ht2
      rw [vecGet_set_self (C, r.2) hr] at hr2
      cases hr2
      split at h
      · cases h
      · rename_i atoms hatoms
        cases h
        exact ⟨r, atoms, hr, hatoms, by simp⟩

theorem linkPrimaryInput_completes {AUTOMATION_INPUTS : Nat} {heap : Heap} {c : AtomController}
    {i : Int} {C : ControllerPtr} {o : Int} (hwf : c.WF AUTOMATION_INPUTS) (h0 : 0 ≤ i)
    (h1 : i < (c.m_parameters.m_numPrimaryInputs : Int)) (hsrc : SourceReady heap c C o) :
    ∃ c1, c.linkPrimaryInput heap i C o = some c1 := by
  obtain ⟨hp, _, hatoms⟩ := hwf
  obtain ⟨r, hr⟩ := vecGet_of_lt h0 (by rw [hp]; exact h1)
  have ht1 := vecModify_of_get (fun r : Link => (C, r.2)) hr
  have hr1 := vecGet_set_self (C, r.2) hr
  have ht2 := vecModify_of_get (fun r : Link => (r.1, o)) hr1
  obtain ⟨atoms, hl⟩ := linkAtoms_isSome (fun a b => a.linkPrimaryInput i b) heap C o c.m_atoms 0
    (fun k hk => by simpa using hsrc k hk)
    (fun a ha b => Atom.linkPrimaryInput_isSome a i b h0 (by rw [(hatoms a ha).1]; exact h1))
  have hl0 : linkAtoms (fun a b => a.linkPrimaryInput i b) heap C o c.m_atoms 0 = some atoms := by
    simpa using hl
  unfold AtomController.linkPrimaryInput
  rw [ht1]
  simp only [ht2, hl0]
  exact ⟨_, rfl⟩

theorem linkAutomationInput_completes {AUTOMATION_INPUTS : Nat} {heap : Heap}
    {c : AtomController} {i : Int} {C : ControllerPtr} {o : Int} (hwf : c.WF AUTOMATION_INPUTS)
    (h0 : 0 ≤ i) (h1 : i < (AUTOMATION_INPUTS : Int)) (hsrc : SourceReady heap c C o) :
    ∃ c1, c.linkAutomationInput heap i C o = some c1 := by
  obtain ⟨_, hp, hatoms⟩ := hwf
  obtain ⟨r, hr⟩ := vecGet_of_lt h0 (by rw [hp]; exact h1)
  have ht1 := vecModify_of_get (fun r : Link => (C, r.2)) hr
  have hr1 := vecGet_set_self (C, r.2) hr
  have ht2 := vecModify_of_get (fun r : Link => (r.1, o)) hr1
  obtain ⟨atoms, hl⟩ := linkAtoms_isSome (fun a b => a.linkAutomationInput i b) heap C o
    c.m_atoms 0 (fun k hk => by simpa using hsrc k hk)
    (fun a ha b => Atom.linkAutomationInput_isSome a i b h0 (by rw [(hatoms a ha).2]; exact h1))
  have hl0 : linkAtoms (fun a b => a.linkAutomationInput i b) heap C o c.m_atoms 0
      = some atoms := by
    simpa using hl
  unfold AtomController.linkAutomationInput
  rw [ht1]
  simp only [ht2, hl0]
  exact ⟨_, rfl⟩

/-- C11: let controller `c` have the declared table and slot sizes, and let the source
controller living at `addr` have at least as many voices as `c`, each with the declared number
of outputs, with `0 ≤ o < outputCount`.  Then for an in-range primary slot `index`,
`linkPrimaryInput(index, source, o)` completes, keeps the number of voices, and turns every
voice `i` into the same voice with primary slot `index` referencing output `o` of voice `i` of
the source (never of another voice) and nothing else changed.  The same holds for
`linkAutomationInput` and the automation slots. -/
theorem link_aligns_voices (AUTOMATION_INPUTS : Nat) (heap : Heap) (c : AtomController)
    (index : Int) (addr : Nat) (src : AtomController) (o : Int) (hwf : c.WF AUTOMATION_INPUTS)
    (hheap : heap addr = some src) (hvoices : c.m_atoms.length ≤ src.m_atoms.length)
    (hout : src.OutputsSized) (ho0 : 0 ≤ o) (ho1 : o < (src.m_parameters.m_numOutputs : Int))
    (h0 : 0 ≤ index) :
    (index < (c.m_parameters.m_numPrimaryInputs : Int) →
      ∃ c1, c.linkPrimaryInput heap index (some addr) o = some c1 ∧
        c1.m_atoms.length = c.m_atoms.length ∧
        ∀ (i : Nat) (a : Atom), c.m_atoms[i]? = some a →
          ∃ a1, c1.m_atoms[i]? = some a1 ∧
            vecGet a1.m_primaryInputs index
              = some (some { controller := addr, atom := i, output := o.toNat }) ∧
            a1 = { a with
              m_primaryInputs := a.m_primaryInputs.set index.toNat
                (some { controller := addr, atom := i, output := o.toNat }) }) ∧
    (index < (AUTOMATION_INPUTS : Int) →
      ∃ c1, c.linkAutomationInput heap index (some addr) o = some c1 ∧
        c1.m_atoms.length = c.m_atoms.length ∧
        ∀ (i : Nat) (a : Atom), c.m_atoms[i]? = some a →
          ∃ a1, c1.m_atoms[i]? = some a1 ∧
            vecGet a1.m_automationInputs index
              = some (some { controller := addr, atom := i, output := o.toNat }) ∧
            a1 = { a with
              m_automationInputs := a.m_automationInputs.set index.toNat
                (some { controller := addr, atom := i, output := o.toNat }) }) := by
  have hsrc : SourceReady heap c (some addr) o :=
    sourceReady_of_fits hheap hvoices hout ho0 ho1
  constructor
  · intro h1
    obtain ⟨c1, hc1⟩ := linkPrimaryInput_completes hwf h0 h1 hsrc
    obtain ⟨r, atoms, _, hatoms, rfl⟩ := linkPrimaryInput_some hc1
    refine ⟨_, hc1, linkAtoms_length _ _ _ _ _ _ _ hatoms, ?_⟩
    intro i a ha
    obtain ⟨buffer, a1, hb, hl, hr⟩ := linkAtoms_getElem _ _ _ _ _ _ _ hatoms i a ha
    obtain ⟨addr1, haddr, rfl⟩ := sourceOutput_some hb
    cases haddr
    obtain ⟨e1, e2⟩ := Atom.primarySlot_stored hl
    refine ⟨a1, hr, ?_, ?_⟩
    · simpa using e2
    · simpa using e1
  · intro h1
    obtain ⟨c1, hc1⟩ := linkAutomationInput_completes hwf h0 h1 hsrc
    obtain ⟨r, atoms, _, hatoms, rfl⟩ := linkAutomationInput_some hc1
    refine ⟨_, hc1, linkAtoms_length _ _ _ _ _ _ _ hatoms, ?_⟩
    intro i a ha
    obtain ⟨buffer, a1, hb, hl, hr⟩ := linkAtoms_getElem _ _ _ _ _ _ _ hatoms i a ha
    obtain ⟨addr1, haddr, rfl⟩ := sourceOutput_some hb
    cases haddr
    obtain ⟨e1, e2⟩ := Atom.automationSlot_stored hl
    refine ⟨a1, hr, ?_, ?_⟩
    · simpa using e2
    · simpa using e1

theorem link_aligns_voices_witness :
    ((0 : Int) < (exNode.m_parameters.m_numPrimaryInputs : Int) →
      ∃ c1, exNode.linkPrimaryInput exHeap 0 (some 1) 1 = some c1 ∧
        c1.m_atoms.length = exNode.m_atoms.length ∧
        ∀ (i : Nat) (a : Atom), exNode.m_atoms[i]? = some a →
          ∃ a1, c1.m_atoms[i]? = some a1 ∧
            vecGet a1.m_primaryInputs 0
              = some (some { controller := 1, atom := i, output := (1 : Int).toNat }) ∧
            a1 = { a with
              m_primaryInputs := a.m_primaryInputs.set (0 : Int).toNat
                (some { controller := 1, atom := i, output := (1 : Int).toNat }) }) ∧
    ((0 : Int) < ((2 : Nat) : Int) →
      ∃ c1, exNode.linkAutomationInput exHeap 0 (some 1) 1 = some c1 ∧
        c1.m_atoms.length = exNode.m_atoms.length ∧
        ∀ (i : Nat) (a : Atom), exNode.m_atoms[i]? = some a →
          ∃ a1, c1.m_atoms[i]? = some a1 ∧
            vecGet a1.m_automationInputs 0
              = some (some { controller := 1, atom := i, output := (1 : Int).toNat }) ∧
            a1 = { a with
              m_automationInputs := a.m_automationInputs.set (0 : Int).toNat
                (some { controller := 1, atom := i, output := (1 : Int).toNat }) }) :=
  link_aligns_voices 2 exHeap exNode 0 1 exSource 1 (by decide) (by decide) (by decide)
    (by decide) (by decide) (by decide) (by decide)

/-! ## Unlinking -/

theorem forEach_eq_map {α : Type} (f : α → Option α) (g : α → α) :
    ∀ l : List α, (∀ a ∈ l, f a = some (g a)) → forEach f l = some (l.map g) := by
  intro l
  induction l with
  | nil => intro _; rfl
  | cons x rest ih =>
    intro h
    have hx := h x (by simp)
    have hrest := ih (fun a ha => h a (by simp [ha]))
    simp [forEach, hx, hrest]

theorem vecGet_set_ne {α : Type} (v : List α) {i j : Int} (y : α) (hi : 0 ≤ i) (hne : j ≠ i) :
    vecGet (v.set i.toNat y) j = vecGet v j := by
  by_cases hj : 0 ≤ j
  · exact vecGet_set_other v y hi hj (Ne.symm hne)
  · simp [vecGet, hj]

theorem Atom.linkPrimaryInput_of_lt (a : Atom) (index : Int) (b : BufferPtr) (h0 : 0 ≤ index)
    (h1 : index < (a.m_primaryInputs.length : Int)) :
    a.linkPrimaryInput index b
      = some { a with m_primaryInputs := a.m_primaryInputs.set index.toNat b } := by
  obtain ⟨x, hx⟩ := vecGet_of_lt h0 h1
  simp [Atom.linkPrimaryInput, vecModify_of_get _ hx]

theorem Atom.linkAutomationInput_of_lt (a : Atom) (index : Int) (b : BufferPtr) (h0 : 0 ≤ index)
    (h1 : index < (a.m_automationInputs.length : Int)) :
    a.linkAutomationInput index b
      = some { a with m_automationInputs := a.m_automationInputs.set index.toNat b } := by
  obtain ⟨x, hx⟩ := vecGet_of_lt h0 h1
  simp [Atom.linkAutomationInput, vecModify_of_get _ hx]

theorem unlinkPrimaryInput_eq {AUTOMATION_INPUTS : Nat} {c : AtomController} {index : Int}
    (hwf : c.WF AUTOMATION_INPUTS) (h0 : 0 ≤ index)
    (h1 : index < (c.m_parameters.m_numPrimaryInputs : Int)) :
    ∃ r, vecGet c.m_primaryInputs index = some r ∧
      c.unlinkPrimaryInput index = some { c with
        m_primaryInputs := c.m_primaryInputs.set index.toNat (none, r.2)
        m_atoms := c.m_atoms.map fun a =>
          { a with m_primaryInputs := a.m_primaryInputs.set index.toNat none } } := by
  obtain ⟨hp, _, hatoms⟩ := hwf
  obtain ⟨r, hr⟩ := vecGet_of_lt h0 (by rw [hp]; exact h1)
  have ht := vecModify_of_get (fun r : Link => (none, r.2)) hr
  have hl := forEach_eq_map (fun a : Atom => a.unlinkPrimaryInput index)
    (fun a => { a with m_primaryInputs := a.m_primaryInputs.set index.toNat none }) c.m_atoms
    (fun a ha => Atom.linkPrimaryInput_of_lt a index none h0 (by rw [(hatoms a ha).1]; exact h1))
  refine ⟨r, hr, ?_⟩
  unfold AtomController.unlinkPrimaryInput
  rw [ht]
  simp only [hl]

theorem unlinkAutomationInput_eq {AUTOMATION_INPUTS : Nat} {c : AtomController} {index : Int}
    (hwf : c.WF AUTOMATION_INPUTS) (h0 : 0 ≤ index) (h1 : index < (AUTOMATION_INPUTS : Int)) :
    ∃ r, vecGet c.m_automationInputs index = some r ∧
      c.unlinkAutomationInput index = some { c with
        m_automationInputs := c.m_automationInputs.set index.toNat (none, r.2)
        m_atoms := c.m_atoms.map fun a =>
          { a with m_automationInputs := a.m_automationInputs.set index.toNat none } } := by
  obtain ⟨_, hp, hatoms⟩ := hwf
  obtain ⟨r, hr⟩ := vecGet_of_lt h0 (by rw [hp]; exact h1)
  have ht := vecModify_of_get (fun r : Link => (none, r.2)) hr
  have hl := forEach_eq_map (fun a : Atom => a.unlinkAutomationInput index)
    (fun a => { a with m_automationInputs := a.m_automationInputs.set index.toNat none })
    c.m_atoms
    (fun a ha => Atom.linkAutomationInput_of_lt a index none h0
      (by rw [(hatoms a ha).2]; exact h1))
  refine ⟨r, hr, ?_⟩
  unfold AtomController.unlinkAutomationInput
  rw [ht]
  simp only [hl]

/-- C12: on a controller with the declared table and slot sizes and for an in-range slot
`index`, `unlinkPrimaryInput(index)` completes; afterwards primary record `index` has an empty
source (its output index is kept), every other primary record and the whole automation table
are unchanged, and every voice is the same voice with primary slot `index` empty and nothing
else changed.  The same holds for `unlinkAutomationInput` and the automation table. -/
theorem unlink_clears_record_and_slots (AUTOMATION_INPUTS : Nat) (c : AtomController)
    (index : Int) (hwf : c.WF AUTOMATION_INPUTS) (h0 : 0 ≤ index) :
    (index < (c.m_parameters.m_numPrimaryInputs : Int) →
      ∃ c1 r, c.unlinkPrimaryInput index = some c1 ∧
        vecGet c.m_primaryInputs index = some r ∧
        vecGet c1.m_primaryInputs index = some (none, r.2) ∧
        (∀ j : Int, j ≠ index → vecGet c1.m_primaryInputs j = vecGet c.m_primaryInputs j) ∧
        c1.m_automationInputs = c.m_automationInputs ∧
        c1.m_atoms.length = c.m_atoms.length ∧
        ∀ (i : Nat) (a : Atom), c.m_atoms[i]? = some a →
          ∃ a1, c1.m_atoms[i]? = some a1 ∧ vecGet a1.m_primaryInputs index = some none ∧
            a1 = { a with m_primaryInputs := a.m_primaryInputs.set index.toNat none }) ∧
    (index < (AUTOMATION_INPUTS : Int) →
      ∃ c1 r, c.unlinkAutomationInput index = some c1 ∧
        vecGet c.m_automationInputs index = some r ∧
        vecGet c1.m_automationInputs index = some (none, r.2) ∧
        (∀ j : Int, j ≠ index →
          vecGet c1.m_automationInputs j = vecGet c.m_automationInputs j) ∧
        c1.m_primaryInputs = c.m_primaryInputs ∧
        c1.m_atoms.length = c.m_atoms.length ∧
        ∀ (i : Nat) (a : Atom), c.m_atoms[i]? = some a →
          ∃ a1, c1.m_atoms[i]? = some a1 ∧ vecGet a1.m_automationInputs index = some none ∧
            a1 = { a with m_automationInputs := a.m_automationInputs.set index.toNat none }) := by
  constructor
  · intro h1
    obtain ⟨r, hr, hc⟩ := unlinkPrimaryInput_eq hwf h0 h1
    refine ⟨_, r, hc, hr, vecGet_set_self _ hr, fun j hj => vecGet_set_ne _ _ h0 hj, rfl,
      by simp, ?_⟩
    intro i a ha
    have hlen : index < (a.m_primaryInputs.length : Int) := by
      rw [(hwf.2.2 a (List.getElem?_mem ha)).1]; exact h1
    obtain ⟨x, hx⟩ := vecGet_of_lt h0 hlen
    exact ⟨_, by simp [ha], vecGet_set_self none hx, rfl⟩
  · intro h1
    obtain ⟨r, hr, hc⟩ := unlinkAutomationInput_eq hwf h0 h1
    refine ⟨_, r, hc, hr, vecGet_set_self _ hr, fun j hj => vecGet_set_ne _ _ h0 hj, rfl,
      by simp, ?_⟩
    intro i a ha
    have hlen : index < (a.m_automationInputs.length : Int) := by
      rw [(hwf.2.2 a (List.getElem?_mem ha)).2]; exact h1
    obtain ⟨x, hx⟩ := vecGet_of_lt h0 hlen
    exact ⟨_, by simp [ha], vecGet_set_self none hx, rfl⟩

theorem unlink_clears_record_and_slots_witness :
    exLinkedBoth = some exLinkedNode ∧
    (exLinkedNode.m_primaryInputs, exLinkedNode.m_automationInputs)
      = ([(some 1, 1)], [(some 1, 0), (none, 0)]) ∧
    exLinkedNode.m_atoms.map (fun a => (a.m_primaryInputs, a.m_automationInputs))
      = [([some { controller := 1, atom := 0, output := 1 }],
          [some { controller := 1, atom := 0, output := 0 }, none]),
         ([some { controller := 1, atom := 1, output := 1 }],
          [some { controller := 1, atom := 1, output := 0 }, none])] ∧
    (∃ c1 r, exLinkedNode.unlinkPrimaryInput 0 = some c1 ∧
      vecGet exLinkedNode.m_primaryInputs 0 = some r ∧
      vecGet c1.m_primaryInputs 0 = some (none, r.2) ∧
      (∀ j : Int, j ≠ 0 → vecGet c1.m_primaryInputs j = vecGet exLinkedNode.m_primaryInputs j) ∧
      c1.m_automationInputs = exLinkedNode.m_automationInputs ∧
      c1.m_atoms.length = exLinkedNode.m_atoms.length ∧
      ∀ (i : Nat) (a : Atom), exLinkedNode.m_atoms[i]? = some a →
        ∃ a1, c1.m_atoms[i]? = some a1 ∧ vecGet a1.m_primaryInputs 0 = some none ∧
          a1 = { a with m_primaryInputs := a.m_primaryInputs.set (0 : Int).toNat none }) ∧
    (∃ c1 r, exLinkedNode.unlinkAutomationInput 0 = some c1 ∧
      vecGet exLinkedNode.m_automationInputs 0 = some r ∧
      vecGet c1.m_automationInputs 0 = some (none, r.2) ∧
      (∀ j : Int, j ≠ 0 →
        vecGet c1.m_automationInputs j = vecGet exLinkedNode.m_automationInputs j) ∧
      c1.m_primaryInputs = exLinkedNode.m_primaryInputs ∧
      c1.m_atoms.length = exLinkedNode.m_atoms.length ∧
      ∀ (i : Nat) (a : Atom), exLinkedNode.m_atoms[i]? = some a →
        ∃ a1, c1.m_atoms[i]? = some a1 ∧ vecGet a1.m_automationInputs 0 = some none ∧
          a1 = { a with m_automationInputs := a.m_automationInputs.set (0 : Int).toNat none }) ∧
    (exLinkedNode.unlinkPrimaryInput 0).map
        (fun c1 => (c1.m_primaryInputs, c1.m_automationInputs))
      = some ([(none, 1)], [(some 1, 0), (none, 0)]) ∧
    (exLinkedNode.unlinkPrimaryInput 0).map
        (fun c1 => c1.m_atoms.map fun a => (a.m_primaryInputs, a.m_automationInputs))
      = some [([none], [some { controller := 1, atom := 0, output := 0 }, none]),
              ([none], [some { controller := 1, atom := 1, output := 0 }, none])] ∧
    (exLinkedNode.unlinkAutomationInput 0).map
        (fun c1 => (c1.m_primaryInputs, c1.m_automationInputs))
      = some ([(some 1, 1)], [(none, 0), (none, 0)]) ∧
    (exLinkedNode.unlinkAutomationInput 0).map
        (fun c1 => c1.m_atoms.map fun a => (a.m_primaryInputs, a.m_automationInputs))
      = some [([some { controller := 1, atom := 0, output := 1 }], [none, none]),
              ([some { controller := 1, atom := 1, output := 1 }], [none, none])] :=
  match unlink_clears_record_and_slots 2 exLinkedNode 0 (by decide) (by decide) with
  | ⟨hp, ha⟩ => ⟨by decide, by decide, by decide, hp (by decide), ha (by decide), by decide,
      by decide, by decide, by decide⟩

/-! ## Dispatch of one block -/

theorem execute_eq_forLoop (synth : Synth) (calculateAutomation : Atom → Atom)
    (c : AtomController) :
    c.execute synth calculateAutomation
      = forLoop (AtomController.executeVoice synth calculateAutomation) synth.m_polyphony.toNat c :=
  rfl

theorem Atom.reset_parent_frame (a : Atom) (m_p : AtomController) :
    (a.reset m_p).2.m_atoms = m_p.m_atoms ∧
    (a.reset m_p).2.m_primaryInputs = m_p.m_primaryInputs ∧
    (a.reset m_p).2.m_automationInputs = m_p.m_automationInputs ∧
    (a.reset m_p).2.m_parameters = m_p.m_parameters ∧
    (a.reset m_p).2.m_x = m_p.m_x ∧ (a.reset m_p).2.m_y = m_p.m_y := by
  by_cases h : a.getIndex = 0 <;> simp [Atom.reset, h, AtomController.stopControlAnimation]

theorem unlinkPrimaryInput_some {c c1 : AtomController} {i : Int}
    (h : c.unlinkPrimaryInput i = some c1) :
    ∃ r atoms, vecGet c.m_primaryInputs i = some r ∧
      c1 = { c with m_primaryInputs := c.m_primaryInputs.set i.toNat (none, r.2),
                    m_atoms := atoms } := by
  unfold AtomController.unlinkPrimaryInput at h
  split at h
  · cases h
  · rename_i t ht
    obtain ⟨r, hr, rfl⟩ := vecModify_some ht
    split at h
    · cases h
    · rename_i atoms _
      cases h
      exact ⟨r, atoms, hr, rfl⟩

theorem unlinkAutomationInput_some {c c1 : AtomController} {i : Int}
    (h : c.unlinkAutomationInput i = some c1) :
    ∃ r atoms, vecGet c.m_automationInputs i = some r ∧
      c1 = { c with m_automationInputs := c.m_automationInputs.set i.toNat (none, r.2),
                    m_atoms := atoms } := by
  unfold AtomController.unlinkAutomationInput at h
  split at h
  · cases h
  · rename_i t ht
    obtain ⟨r, hr, rfl⟩ := vecModify_some ht
    split at h
    · cases h
    · rename_i atoms _
      cases h
      exact ⟨r, atoms, hr, rfl⟩

theorem executeVoice_frame {synth : Synth} {calculateAutomation : Atom → Atom} {k : Nat}
    {c c1 : AtomController} (h : c.executeVoice synth calculateAutomation k = some c1) :
    c1.m_primaryInputs = c.m_primaryInputs ∧ c1.m_automationInputs = c.m_automationInputs ∧
    c1.m_parameters = c.m_parameters := by
  unfold AtomController.executeVoice at h
  split at h
  · split at h
    · cases h
    · cases h
      exact ⟨rfl, rfl, rfl⟩
  · split at h
    · split at h
      · cases h
      · rename_i atom _
        simp only at h
        split at h
        · cases h
        · cases h
          obtain ⟨_, f2, f3, f4, _, _⟩ := Atom.reset_parent_frame atom c
          exact ⟨f2, f3, f4⟩
    · cases h
      exact ⟨rfl, rfl, rfl⟩

theorem Op.apply_tables (op : Op) (c c1 : AtomController) (h : op.apply c = some c1) :
    c1.m_primaryInputs.length = c.m_primaryInputs.length ∧
    c1.m_automationInputs.length = c.m_automationInputs.length ∧
    c1.m_parameters = c.m_parameters := by
  cases op with
  | linkPrimaryInput heap index controller outputIndex =>
    obtain ⟨_, _, _, _, rfl⟩ := linkPrimaryInput_some h
    simp
  | linkAutomationInput heap index controller outputIndex =>
    obtain ⟨_, _, _, _, rfl⟩ := linkAutomationInput_some h
    simp
  | linkInput heap index controller outputIndex =>
    simp only [Op.apply, AtomController.linkInput] at h
    split at h
    · obtain ⟨_, _, _, _, rfl⟩ := linkPrimaryInput_some h
      simp
    · obtain ⟨_, _, _, _, rfl⟩ := linkAutomationInput_some h
      simp
  | unlinkPrimaryInput index =>
    obtain ⟨_, _, _, rfl⟩ := unlinkPrimaryInput_some h
    simp
  | unlinkAutomationInput index =>
    obtain ⟨_, _, _, rfl⟩ := unlinkAutomationInput_some h
    simp
  | unlinkInput index =>
    simp only [Op.apply, AtomController.unlinkInput] at h
    split at h
    · obtain ⟨_, _, _, rfl⟩ := unlinkPrimaryInput_some h
      simp
    · obtain ⟨_, _, _, rfl⟩ := unlinkAutomationInput_some h
      simp
  | cleanupInputsFromAtom source =>
    simp only [Op.apply, Option.some.injEq] at h
    rw [← h]
    simp [AtomController.cleanupInputsFromAtom]
  | loadSaveState state =>
    simp only [Op.apply] at h
    unfold AtomController.loadSaveState at h
    split at h
    · cases h
    · split at h
      · cases h
      · cases h
        exact ⟨rfl, rfl, rfl⟩
  | execute synth calculateAutomation =>
    simp only [Op.apply, execute_eq_forLoop] at h
    exact forLoop_preserves _
      (fun s => s.m_primaryInputs.length = c.m_primaryInputs.length ∧
        s.m_automationInputs.length = c.m_automationInputs.length ∧
        s.m_parameters = c.m_parameters)
      (fun i s s1 hb hs => by
        obtain ⟨f1, f2, f3⟩ := executeVoice_frame hb
        rw [f1, f2, f3]
        exact hs) _ _ _ h ⟨rfl, rfl, rfl⟩
  | stopControlAnimation =>
    simp only [Op.apply, Option.some.injEq] at h
    rw [← h]
    exact ⟨rfl, rfl, rfl⟩

theorem runOps_tables :
    ∀ (ops : List Op) (c c1 : AtomController), runOps ops c = some c1 →
      c1.m_primaryInputs.length = c.m_primaryInputs.length ∧
      c1.m_automationInputs.length = c.m_automationInputs.length ∧
      c1.m_parameters = c.m_parameters := by
  intro ops
  induction ops with
  | nil =>
    intro c c1 h
    simp only [runOps, Option.some.injEq] at h
    rw [h]
    exact ⟨rfl, rfl, rfl⟩
  | cons op rest ih =>
    intro c c1 h
    simp only [runOps] at h
    obtain ⟨m, hm, hr⟩ := Option.bind_eq_some.mp h
    obtain ⟨a1, a2, a3⟩ := Op.apply_tables op c m hm
    obtain ⟨b1, b2, b3⟩ := ih m c1 hr
    exact ⟨b1.trans a1, b2.trans a2, b3.trans a3⟩

theorem init_frame (AUTOMATION_INPUTS : Nat) (defaultBuffer : AudioBuffer) (synth : Synth)
    (c : AtomController) :
    (c.init AUTOMATION_INPUTS defaultBuffer synth).state.m_primaryInputs = c.m_primaryInputs ∧
    (c.init AUTOMATION_INPUTS defaultBuffer synth).state.m_automationInputs
      = c.m_automationInputs ∧
    (c.init AUTOMATION_INPUTS defaultBuffer synth).state.m_parameters = c.m_parameters := by
  rw [init_state]
  exact ⟨rfl, rfl, rfl⟩

/-- C14: a freshly constructed controller has exactly `primaryInputCount` primary link records
and `AUTOMATION_INPUTS` automation link records, and from any controller with these sizes
`init()` (whether it returns or throws) and every sequence of link, unlink,
`cleanupInputsFromAtom` (and `loadSaveState`, `execute`, `stopControlAnimation`) calls that
completes leads to a controller with the same sizes and the same parameters. -/
theorem link_tables_keep_their_size (AUTOMATION_INPUTS : Nat) (parameters : AtomParameters) :
    (AtomController.new AUTOMATION_INPUTS parameters).m_primaryInputs.length
      = parameters.m_numPrimaryInputs ∧
    (AtomController.new AUTOMATION_INPUTS parameters).m_automationInputs.length
      = AUTOMATION_INPUTS ∧
    (AtomController.new AUTOMATION_INPUTS parameters).TablesSized AUTOMATION_INPUTS ∧
    (∀ (c : AtomController) (defaultBuffer : AudioBuffer) (synth : Synth),
      c.TablesSized AUTOMATION_INPUTS →
        (c.init AUTOMATION_INPUTS defaultBuffer synth).state.TablesSized AUTOMATION_INPUTS) ∧
    (∀ (c : AtomController) (ops : List Op) (c1 : AtomController),
      c.TablesSized AUTOMATION_INPUTS → runOps ops c = some c1 →
        c1.TablesSized AUTOMATION_INPUTS ∧ c1.m_parameters = c.m_parameters) := by
  refine ⟨by simp [AtomController.new], by simp [AtomController.new],
    by simp [AtomController.TablesSized, AtomController.new], ?_, ?_⟩
  · intro c defaultBuffer synth hs
    obtain ⟨f1, f2, f3⟩ := init_frame AUTOMATION_INPUTS defaultBuffer synth c
    unfold AtomController.TablesSized
    rw [f1, f2, f3]
    exact hs
  · intro c ops c1 hs h
    obtain ⟨f1, f2, f3⟩ := runOps_tables ops c c1 h
    unfold AtomController.TablesSized
    rw [f1, f2, f3]
    exact ⟨hs, rfl⟩

/-! ## Reading the link tables -/

/-- C16: `addInput` of an empty reference returns no cursor and changes nothing; `addInput` of
a buffer flagged constant appends one cursor at the start of its data to the constant-input
list (and the buffer to the constant sources), leaves the varying and output lists unchanged
and returns that cursor; for a buffer not flagged constant the same holds with the
varying-input list; `addOutput` appends one cursor at the start of the buffer's data to the
output list only and returns it. -/
theorem addInput_addOutput_bind_one_cursor (mem : BufferAddr → AudioBuffer) (s : IOSet)
    (b : BufferAddr) :
    s.addInput mem none = (s, none) ∧
    ((mem b).m_constant = true →
      (s.addInput mem (some b)).2 = some (dataBegin b) ∧
      (s.addInput mem (some b)).1.m_constInputs = s.m_constInputs ++ [dataBegin b] ∧
      (s.addInput mem (some b)).1.m_constInputSources = s.m_constInputSources ++ [b] ∧
      (s.addInput mem (some b)).1.m_incInputs = s.m_incInputs ∧
      (s.addInput mem (some b)).1.m_incInputSources = s.m_incInputSources ∧
      (s.addInput mem (some b)).1.m_outputs = s.m_outputs ∧
      (s.addInput mem (some b)).1.m_outputSources = s.m_outputSources) ∧
    ((mem b).m_constant = false →
      (s.addInput mem (some b)).2 = some (dataBegin b) ∧
      (s.addInput mem (some b)).1.m_incInputs = s.m_incInputs ++ [dataBegin b] ∧
      (s.addInput mem (some b)).1.m_incInputSources = s.m_incInputSources ++ [b] ∧
      (s.addInput mem (some b)).1.m_constInputs = s.m_constInputs ∧
      (s.addInput mem (some b)).1.m_constInputSources = s.m_constInputSources ∧
      (s.addInput mem (some b)).1.m_outputs = s.m_outputs ∧
      (s.addInput mem (some b)).1.m_outputSources = s.m_outputSources) ∧
    ((s.addOutput b).2 = some (dataBegin b) ∧
      (s.addOutput b).1.m_outputs = s.m_outputs ++ [dataBegin b] ∧
      (s.addOutput b).1.m_outputSources = s.m_outputSources ++ [b] ∧
      (s.addOutput b).1.m_constInputs = s.m_constInputs ∧
      (s.addOutput b).1.m_incInputs = s.m_incInputs ∧
      (s.addOutput b).1.m_constInputSources = s.m_constInputSources ∧
      (s.addOutput b).1.m_incInputSources = s.m_incInputSources) ∧
    (dataBegin b).buffer = b ∧ (dataBegin b).offset = 0 := by
  refine ⟨rfl, ?_, ?_, ?_, rfl, rfl⟩
  · intro h
    simp [IOSet.addInput, h]
  · intro h
    simp [IOSet.addInput, h]
  · simp [IOSet.addOutput]

/-! ## One heartbeat step -/

/-- C17: one `executeWrapper()` call, with an automation computation that leaves the counter,
the flag and the parameters alone: a voice with index 0 and counter 0 gets heartbeat true and
counter 5; a voice with index 0 and counter `k > 0` gets counter `k - 1` and heartbeat false;
a voice with another index keeps both its counter and its heartbeat flag. -/
theorem executeWrapper_heartbeat_step (synth : Synth) (calculateAutomation : Atom → Atom)
    (hauto : KeepsHeartbeat calculateAutomation) (a : Atom) :
    (a.m_parameters.m_id = 0 → a.m_updateTimer = 0 →
      (a.executeWrapper synth calculateAutomation).m_shouldUpdateParent = true ∧
      (a.executeWrapper synth calculateAutomation).m_updateTimer = 5) ∧
    (a.m_parameters.m_id = 0 → 0 < a.m_updateTimer →
      (a.executeWrapper synth calculateAutomation).m_updateTimer = a.m_updateTimer - 1 ∧
      (a.executeWrapper synth calculateAutomation).m_shouldUpdateParent = false) ∧
    (a.m_parameters.m_id ≠ 0 →
      (a.executeWrapper synth calculateAutomation).m_updateTimer = a.m_updateTimer ∧
      (a.executeWrapper synth calculateAutomation).m_shouldUpdateParent
        = a.m_shouldUpdateParent) := by
  have f1 : ∀ x, (calculateAutomation x).m_updateTimer = x.m_updateTimer := fun x => (hauto x).1
  have f2 : ∀ x, (calculateAutomation x).m_shouldUpdateParent = x.m_shouldUpdateParent :=
    fun x => (hauto x).2.1
  refine ⟨?_, ?_, ?_⟩
  · intro hid ht
    obtain ⟨_, h2, h3⟩ := Atom.executeWrapper_heartbeat synth calculateAutomation hauto a hid
    rw [h2, h3]
    simp [ht]
  · intro hid ht
    obtain ⟨_, h2, h3⟩ := Atom.executeWrapper_heartbeat synth calculateAutomation hauto a hid
    have hne : a.m_updateTimer ≠ 0 := by omega
    rw [h2, h3]
    simp [hne]
  · intro hid
    unfold Atom.executeWrapper Atom.execute
    by_cases he : a.m_parameters.m_automationEnabled = true <;> simp [hid, he, f1, f2]

theorem executeWrapper_heartbeat_step_witness :
    (exVoice.executeWrapper exSynth id).m_shouldUpdateParent = true ∧
    (exVoice.executeWrapper exSynth id).m_updateTimer = 5 :=
  (executeWrapper_heartbeat_step exSynth id (fun _ => ⟨rfl, rfl, rfl⟩) exVoice).1
    (by decide) (by decide)

/-! ## Links made before `init()` -/

theorem linkAtoms_nil (link : Atom → BufferPtr → Option Atom) (heap : Heap)
    (controller : ControllerPtr) (outputIndex start : Int) :
    linkAtoms link heap controller outputIndex [] start = some [] :=
  rfl

theorem init_state_voices (AUTOMATION_INPUTS : Nat) (defaultBuffer : AudioBuffer) (synth : Synth)
    (c : AtomController) (hempty : c.m_atoms = []) :
    (((c.init AUTOMATION_INPUTS defaultBuffer synth).state.m_atoms.length : Nat) : Int)
      = (if 0 ≤ c.m_parameters.m_numOutputs then max synth.m_polyphony 0 else 0) ∧
    ∀ a ∈ (c.init AUTOMATION_INPUTS defaultBuffer synth).state.m_atoms,
      a.m_primaryInputs = List.replicate c.m_parameters.m_numPrimaryInputs none ∧
      a.m_automationInputs = List.replicate AUTOMATION_INPUTS none := by
  rw [init_state, hempty]
  constructor
  · by_cases h : 0 ≤ c.m_parameters.m_numOutputs
    · rw [filterMap_all_some _ _ (fun i : Nat => Atom.new_of_nonneg _ _ c (i : Int) h)]
      simp [h, Int.toNat_eq_max]
    · have hneg : c.m_parameters.m_numOutputs < 0 := by omega
      rw [filterMap_all_none _ (fun i : Nat => Atom.new_of_neg _ _ c (i : Int) hneg)]
      simp [h]
  · intro a ha
    simp only [List.nil_append, List.mem_filterMap] at ha
    obtain ⟨i, _, hnew⟩ := ha
    obtain ⟨_, _, _, _, h1, h2, _⟩ := Atom.new_some hnew
    exact ⟨h1, h2⟩

/-- C18: on a controller without voices (before `init()`) whose tables have the declared
sizes, `linkPrimaryInput(index, C, o)` with an in-range index completes for any `C` and `o`,
sets record `index` to `(C, o)` and stores no voice reference (there is still no voice); every
voice a later `init()` creates has all its primary and automation slots empty, slot `index`
included (`init()` leaves `max p 0` voices, or none when it throws for a negative output
count).  The same holds for `linkAutomationInput`. -/
theorem link_before_init_reaches_no_voice (AUTOMATION_INPUTS : Nat) (defaultBuffer : AudioBuffer)
    (synth : Synth) (heap : Heap) (c : AtomController) (index : Int) (C : ControllerPtr)
    (o : Int) (hs : c.TablesSized AUTOMATION_INPUTS) (hempty : c.m_atoms = []) (h0 : 0 ≤ index) :
    (index < (c.m_parameters.m_numPrimaryInputs : Int) →
      ∃ c1, c.linkPrimaryInput heap index C o = some c1 ∧ c1.m_atoms = [] ∧
        c1.getInput index = some (C, o) ∧
        (((c1.init AUTOMATION_INPUTS defaultBuffer synth).state.m_atoms.length : Nat) : Int)
          = (if 0 ≤ c.m_parameters.m_numOutputs then max synth.m_polyphony 0 else 0) ∧
        ∀ a ∈ (c1.init AUTOMATION_INPUTS defaultBuffer synth).state.m_atoms,
          a.m_primaryInputs = List.replicate c.m_parameters.m_numPrimaryInputs none ∧
          a.m_automationInputs = List.replicate AUTOMATION_INPUTS none ∧
          vecGet a.m_primaryInputs index = some none) ∧
    (index < (AUTOMATION_INPUTS : Int) →
      ∃ c1, c.linkAutomationInput heap index C o = some c1 ∧ c1.m_atoms = [] ∧
        c1.getAutomationInput index = some (C, o) ∧
        (((c1.init AUTOMATION_INPUTS defaultBuffer synth).state.m_atoms.length : Nat) : Int)
          = (if 0 ≤ c.m_parameters.m_numOutputs then max synth.m_polyphony 0 else 0) ∧
        ∀ a ∈ (c1.init AUTOMATION_INPUTS defaultBuffer synth).state.m_atoms,
          a.m_primaryInputs = List.replicate c.m_parameters.m_numPrimaryInputs none ∧
          a.m_automationInputs = List.replicate AUTOMATION_INPUTS none ∧
          vecGet a.m_automationInputs index = some none) := by
  have hwf : c.WF AUTOMATION_INPUTS := ⟨hs.1, hs.2, by simp [hempty]⟩
  have hsrc : SourceReady heap c C o := by
    intro k hk
    simp [hempty] at hk
  constructor
  · intro h1
    obtain ⟨c1, hc1⟩ := linkPrimaryInput_completes hwf h0 h1 hsrc
    obtain ⟨r, atoms, hr, hatoms, he⟩ := linkPrimaryInput_some hc1
    rw [hempty, linkAtoms_nil] at hatoms
    cases hatoms
    subst he
    obtain ⟨hlen, hall⟩ := init_state_voices AUTOMATION_INPUTS defaultBuffer synth
      { c with m_primaryInputs := c.m_primaryInputs.set index.toNat (C, o), m_atoms := [] } rfl
    refine ⟨_, hc1, rfl, ?_, hlen, ?_⟩
    · simpa [AtomController.getInput, AtomController.getPrimaryInput, h1] using
        vecGet_set_self (C, o) hr
    · intro a ha
      obtain ⟨e1, e2⟩ := hall a ha
      refine ⟨e1, e2, ?_⟩
      have hi : index.toNat < c.m_parameters.m_numPrimaryInputs := by omega
      have e1c : a.m_primaryInputs = List.replicate c.m_parameters.m_numPrimaryInputs none := e1
      rw [e1c]
      simp [vecGet, h0, hi]
  · intro h1
    obtain ⟨c1, hc1⟩ := linkAutomationInput_completes hwf h0 h1 hsrc
    obtain ⟨r, atoms, hr, hatoms, he⟩ := linkAutomationInput_some hc1
    rw [hempty, linkAtoms_nil] at hatoms
    cases hatoms
    subst he
    obtain ⟨hlen, hall⟩ := init_state_voices AUTOMATION_INPUTS defaultBuffer synth
      { c with m_automationInputs := c.m_automationInputs.set index.toNat (C, o), m_atoms := [] }
      rfl
    refine ⟨_, hc1, rfl, ?_, hlen, ?_⟩
    · simpa [AtomController.getAutomationInput] using vecGet_set_self (C, o) hr
    · intro a ha
      obtain ⟨e1, e2⟩ := hall a ha
      refine ⟨e1, e2, ?_⟩
      have hi : index.toNat < AUTOMATION_INPUTS := by omega
      rw [e2]
      simp [vecGet, h0, hi]

theorem link_before_init_reaches_no_voice_witness :
    ∃ c1, exThree.linkPrimaryInput exEmptyHeap 2 (some 9) 5 = some c1 ∧ c1.m_atoms = [] ∧
      c1.getInput 2 = some (some 9, 5) ∧
      (((c1.init 2 exBuffer exSynth).state.m_atoms.length : Nat) : Int)
        = (if 0 ≤ exThree.m_parameters.m_numOutputs then max exSynth.m_polyphony 0 else 0) ∧
      ∀ a ∈ (c1.init 2 exBuffer exSynth).state.m_atoms,
        a.m_primaryInputs = List.replicate exThree.m_parameters.m_numPrimaryInputs none ∧
        a.m_automationInputs = List.replicate 2 none ∧
        vecGet a.m_primaryInputs 2 = some none :=
  (link_before_init_reaches_no_voice 2 exBuffer exSynth exEmptyHeap exThree 2 (some 9) 5
    (by decide) (by decide) (by decide)).1 (by decide)

/-! ## Bounds of the combined operations -/

theorem vecGet_neg {α : Type} (v : List α) {j : Int} (hj : j < 0) : vecGet v j = none := by
  have : ¬ 0 ≤ j := by omega
  simp [vecGet, this]

theorem vecModify_neg {α : Type} (v : List α) {j : Int} (f : α → α) (hj : j < 0) :
    vecModify v j f = none := by
  simp [vecModify, vecGet_neg v hj]

/-- C19: let `c` have the declared table and slot sizes, let the source controller at `addr`
have at least as many voices as `c`, each with the declared number of outputs, and let
`0 ≤ outputIndex < outputCount` of the source.  Then for `0 ≤ index <
primaryInputCount + AUTOMATION_INPUTS` the calls `linkInput`, `unlinkInput` and `getInput`
all complete, that is, no table, voice or output access is out of range.  The lower bound is
needed: a negative index is routed to the primary table and all three calls index it out of
range. -/
theorem in_range_calls_stay_in_bounds (AUTOMATION_INPUTS : Nat) (heap : Heap)
    (c : AtomController) (index : Int) (addr : Nat) (src : AtomController) (o : Int)
    (hwf : c.WF AUTOMATION_INPUTS) (hheap : heap addr = some src)
    (hvoices : c.m_atoms.length ≤ src.m_atoms.length) (hout : src.OutputsSized) (ho0 : 0 ≤ o)
    (ho1 : o < (src.m_parameters.m_numOutputs : Int)) (h0 : 0 ≤ index)
    (h1 : index < ((c.m_parameters.m_numPrimaryInputs + AUTOMATION_INPUTS : Nat) : Int)) :
    (∃ c1, c.linkInput heap index (some addr) o = some c1) ∧
    (∃ c1, c.unlinkInput index = some c1) ∧
    (∃ r, c.getInput index = some r) ∧
    (∀ j : Int, j < 0 →
      routeInput c.m_parameters.m_numPrimaryInputs j = InputSlot.primary j ∧
      c.linkInput heap j (some addr) o = none ∧
      c.unlinkInput j = none ∧
      c.getInput j = none) := by
  have hsrc : SourceReady heap c (some addr) o :=
    sourceReady_of_fits hheap hvoices hout ho0 ho1
  refine ⟨?_, ?_, ?_, ?_⟩
  · unfold AtomController.linkInput
    split
    · rename_i hlt
      exact linkPrimaryInput_completes hwf h0 hlt hsrc
    · rename_i hge
      exact linkAutomationInput_completes hwf (by omega) (by push_cast at h1; omega) hsrc
  · unfold AtomController.unlinkInput
    split
    · rename_i hlt
      obtain ⟨r, _, h⟩ := unlinkPrimaryInput_eq hwf h0 hlt
      exact ⟨_, h⟩
    · rename_i hge
      obtain ⟨r, _, h⟩ := @unlinkAutomationInput_eq AUTOMATION_INPUTS c
        (index - (c.m_parameters.m_numPrimaryInputs : Int)) hwf (by omega)
        (by push_cast at h1; omega)
      exact ⟨_, h⟩
  · unfold AtomController.getInput
    split
    · rename_i hlt
      exact vecGet_of_lt h0 (by rw [hwf.1]; exact hlt)
    · rename_i hge
      exact vecGet_of_lt (by omega) (by rw [hwf.2.1]; push_cast at h1; omega)
  · intro j hj
    have hlt : j < (c.m_parameters.m_numPrimaryInputs : Int) := by omega
    refine ⟨by simp [routeInput, hlt], ?_, ?_, ?_⟩
    · simp [AtomController.linkInput, hlt, AtomController.linkPrimaryInput, vecModify_neg _ _ hj]
    · simp [AtomController.unlinkInput, hlt, AtomController.unlinkPrimaryInput,
        vecModify_neg _ _ hj]
    · simp [AtomController.getInput, hlt, AtomController.getPrimaryInput, vecGet_neg _ hj]

theorem in_range_calls_stay_in_bounds_witness :
    (∃ c1, exNode.linkInput exHeap 2 (some 1) 1 = some c1) ∧
    (∃ c1, exNode.unlinkInput 2 = some c1) ∧
    (∃ r, exNode.getInput 2 = some r) ∧
    exNode.getInput (-1) = none :=
  match in_range_calls_stay_in_bounds 2 exHeap exNode 2 1 exSource 1 (by decide) (by decide)
      (by decide) (by decide) (by decide) (by decide) (by decide) (by decide) with
  | ⟨h1, h2, h3, h4⟩ => ⟨h1, h2, h3, (h4 (-1) (by decide)).2.2.2⟩

/-! ## Pairing of cursors and sources -/

theorem IOSet.resetPosition_of_paired (s : IOSet) (hs : s.Paired) :
    s.resetPosition = some { s with
      m_incInputs := s.m_incInputSources.map dataBegin
      m_constInputs := s.m_constInputSources.map dataBegin
      m_outputs := s.m_outputSources.map dataBegin } := by
  obtain ⟨h1, h2, h3⟩ := hs
  have r1 := (resetCursors_all s.m_incInputSources s.m_incInputs h1).1
  have r2 := (resetCursors_all s.m_constInputSources s.m_constInputs h2).1
  have r3 := (resetCursors_all s.m_outputSources s.m_outputs h3).2
  unfold IOSet.resetPosition
  rw [r1]
  simp only [r2, r3]

theorem SetOp.apply_paired (mem : BufferAddr → AudioBuffer) (defaultSamples : Int) (op : SetOp)
    (s : IOSet) (hs : s.Paired) :
    ∃ s1, op.apply mem defaultSamples s = some s1 ∧ s1.Paired := by
  obtain ⟨h1, h2, h3⟩ := hs
  cases op with
  | addInput input =>
    refine ⟨_, rfl, ?_⟩
    cases input with
    | none => exact ⟨h1, h2, h3⟩
    | some b =>
      by_cases hc : (mem b).m_constant = true
      · simp [IOSet.addInput, hc, IOSet.Paired, h1, h2, h3]
      · simp [IOSet.addInput, hc, IOSet.Paired, h1, h2, h3]
  | addOutput output =>
    exact ⟨_, rfl, by simp [IOSet.addOutput, IOSet.Paired, h1, h2, h3]⟩
  | clear => exact ⟨_, rfl, by simp [IOSet.clear, IOSet.Paired]⟩
  | resetPosition =>
    exact ⟨_, IOSet.resetPosition_of_paired s ⟨h1, h2, h3⟩, by simp [IOSet.Paired]⟩
  | incrementPosition =>
    exact ⟨_, rfl, by simp [IOSet.incrementPosition, IOSet.Paired, h1, h2, h3]⟩
  | incrementChannel =>
    exact ⟨_, rfl, by simp [IOSet.incrementChannel, IOSet.Paired, h1, h2, h3]⟩

theorem runSetOps_paired (mem : BufferAddr → AudioBuffer) (defaultSamples : Int) :
    ∀ (ops : List SetOp) (s : IOSet), s.Paired →
      ∃ s1, runSetOps mem defaultSamples ops s = some s1 ∧ s1.Paired := by
  intro ops
  induction ops with
  | nil => intro s hs; exact ⟨s, rfl, hs⟩
  | cons op rest ih =>
    intro s hs
    obtain ⟨m, hm, hmp⟩ := SetOp.apply_paired mem defaultSamples op s hs
    obtain ⟨s1, h1, hp⟩ := ih m hmp
    exact ⟨s1, by simp [runSetOps, hm, h1], hp⟩

/-- C20: every sequence of `addInput`, `addOutput`, `clear`, `resetPosition`,
`incrementPosition` and `incrementChannel` calls on the empty set completes, and in the set it
reaches each cursor list is as long as its list of reset sources; so `resetPosition()` on it
completes too (no cursor or source is indexed out of range) and rewinds every cursor to the
start of its source.  `clear()` empties all six lists of any set. -/
theorem reachable_sets_pair_cursors_with_sources (mem : BufferAddr → AudioBuffer)
    (defaultSamples : Int) (ops : List SetOp) :
    (∃ s, runSetOps mem defaultSamples ops IOSet.new = some s ∧
      s.m_incInputs.length = s.m_incInputSources.length ∧
      s.m_constInputs.length = s.m_constInputSources.length ∧
      s.m_outputs.length = s.m_outputSources.length ∧
      ∃ s0, s.resetPosition = some s0 ∧
        s0.m_incInputs = s.m_incInputSources.map dataBegin ∧
        s0.m_constInputs = s.m_constInputSources.map dataBegin ∧
        s0.m_outputs = s.m_outputSources.map dataBegin) ∧
    (∀ t : IOSet,
      t.clear.m_constInputs = [] ∧ t.clear.m_incInputs = [] ∧ t.clear.m_outputs = [] ∧
      t.clear.m_incInputSources = [] ∧ t.clear.m_constInputSources = [] ∧
      t.clear.m_outputSources = [] ∧ t.clear = IOSet.new) := by
  constructor
  · obtain ⟨s, hs, hp⟩ := runSetOps_paired mem defaultSamples ops IOSet.new (by decide)
    exact ⟨s, hs, hp.1, hp.2.1, hp.2.2, _, IOSet.resetPosition_of_paired s hp, rfl, rfl, rfl⟩
  · intro t
    exact ⟨rfl, rfl, rfl, rfl, rfl, rfl, rfl⟩

end AtomSynth
